import Mathlib

/-
  Verification of the line-crossing counter (`line_counter_mod.py`).

  The embedding translates `LineCounter.__init__` and `LineCounter.update`
  into pure Lean functions.  Python dictionaries become association lists
  (`lookupA` / `setA`, first-match semantics, insertion order preserved),
  Python list indexing becomes `nthD` / `List.set`, and Python exceptions
  (KeyError / IndexError) become an explicit `PyError` value.  Since an
  exception escapes `update` after part of the state has already been
  mutated in place, `update` returns the (possibly partially updated)
  state together with an optional error.

  Fields of the Python object that no claim touches (the unbatched
  template dicts `in_count_dict` / `out_count_dict` / `tracker_state`
  after construction, the unused scalar `in_count` / `out_count`, and the
  retained `start_points` / `end_points` lists) are not carried in the
  state record; the batched per-line structures, the crossing log and the
  class registry are carried exactly as in the source.
-/

namespace Counting

/-- Association-list lookup: first binding wins, mirroring Python dict access. -/
def lookupA {α β : Type} [DecidableEq α] : List (α × β) → α → Option β
  | [], _ => none
  | (k, v) :: rest, a => if k = a then some v else lookupA rest a

/-- Association-list update, mirroring Python `d[a] = b`: overwrite the first
binding of `a` if present, otherwise append a new binding. -/
def setA {α β : Type} [DecidableEq α] : List (α × β) → α → β → List (α × β)
  | [], a, b => [(a, b)]
  | (k, v) :: rest, a, b => if k = a then (k, b) :: rest else (k, v) :: setA rest a b

/-- List indexing with a default value, used for Python `l[i]`. -/
def nthD {α : Type} (l : List α) (i : Nat) (d : α) : α :=
  match l.get? i with
  | some x => x
  | none => d

/-- A 2D point (`supervision.geometry.dataclasses.Point`). -/
structure Point where
  x : ℚ
  y : ℚ
deriving DecidableEq

/-- An oriented segment (`supervision.geometry.dataclasses.Vector`). -/
structure Vector where
  start : Point
  end_ : Point
deriving DecidableEq

/-- Modelled from the spec: the side test `Vector.is_in` of the geometry
dependency (`supervision`), whose source is not part of this repository.
Per the spec, the side of point `p` is the sign of the 2D cross product of
(end − start) and (p − start), with side taken as `cross < 0`. -/
def Vector.cross (v : Vector) (p : Point) : ℚ :=
  (v.end_.x - v.start.x) * (p.y - v.start.y) - (v.end_.y - v.start.y) * (p.x - v.start.x)

/-- Modelled from the spec: boolean side of `p` relative to `v` (`cross < 0`). -/
def Vector.is_in (v : Vector) (p : Point) : Bool :=
  decide (v.cross p < 0)

/-- One object observation, as destructured by
`for xyxy, confidence, class_id, tracker_id in detections`. -/
structure Detection where
  xyxy : ℚ × ℚ × ℚ × ℚ
  confidence : ℚ
  class_id : Nat
  tracker_id : Option Nat
deriving DecidableEq

/-- Python exceptions that can escape `__init__` / `update`. -/
inductive PyError where
  | indexError : PyError
  | keyErrorClass : Nat → PyError
  | keyErrorCount : String → PyError
  | keyErrorLog : Nat → PyError
deriving DecidableEq

/-- The mutable state of a `LineCounter` object. -/
structure LineCounter where
  vector_batch : List Vector
  tracker_line : List (Nat × List Nat)
  in_count_dict_batch : List (List (String × Int))
  out_count_dict_batch : List (List (String × Int))
  tracker_state_batch : List (List (Nat × Bool))
  class_id : List Nat
  class_name_dict : List (Nat × String)
deriving DecidableEq

instance : Inhabited LineCounter :=
  ⟨⟨[], [], [], [], [], [], []⟩⟩

/-- The loop `for i in range(len(self.start_points)):
self.vector_batch.append(Vector(start=self.start_points[i], end=self.end_points[i]))`.
Indexing `end_points[i]` past its length raises IndexError. -/
def buildVectors : List Point → List Point → Except PyError (List Vector)
  | [], _ => .ok []
  | _ :: _, [] => .error .indexError
  | s :: ss, e :: es => (buildVectors ss es).map (fun vs => ⟨s, e⟩ :: vs)

/-- The loop `for id in self.class_id: self.in_count_dict[self.class_name_dict[id]] = 0`
(and the same for `out_count_dict`): builds the zero-initialized counts template,
raising KeyError on a class id absent from `class_name_dict`. -/
def buildTemplate (cnd : List (Nat × String)) :
    List Nat → List (String × Int) → Except PyError (List (String × Int))
  | [], acc => .ok acc
  | cid :: rest, acc =>
    match lookupA cnd cid with
    | none => .error (.keyErrorClass cid)
    | some name => buildTemplate cnd rest (setA acc name 0)

/-- `LineCounter.__init__(start, end, class_id, class_name_dict)`. -/
def LineCounter.init (start end_ : List Point) (class_id : List Nat)
    (class_name_dict : List (Nat × String)) : Except PyError LineCounter :=
  match buildVectors start end_ with
  | .error e => .error e
  | .ok vecs =>
    match buildTemplate class_name_dict class_id [] with
    | .error e => .error e
    | .ok tmpl =>
      .ok { vector_batch := vecs
            tracker_line := []
            in_count_dict_batch := List.replicate start.length tmpl
            out_count_dict_batch := List.replicate start.length tmpl
            tracker_state_batch := List.replicate start.length []
            class_id := class_id
            class_name_dict := class_name_dict }

/-- Line `li`'s side map `self.tracker_state_batch[li]`. -/
def sideAt (s : LineCounter) (li : Nat) : List (Nat × Bool) :=
  nthD s.tracker_state_batch li []

/-- Line `li`'s in-counts `self.in_count_dict_batch[li]`. -/
def insAt (s : LineCounter) (li : Nat) : List (String × Int) :=
  nthD s.in_count_dict_batch li []

/-- Line `li`'s out-counts `self.out_count_dict_batch[li]`. -/
def outsAt (s : LineCounter) (li : Nat) : List (String × Int) :=
  nthD s.out_count_dict_batch li []

/-- The body of `for id, triggers in enumerate(triggers_batch):` in `update`,
for one line index `li` and its side-test result `trig`.  The returned state
reflects every mutation performed before a raised exception (if any). -/
def stepLine (s : LineCounter) (tid cid li : Nat) (trig : Bool) :
    LineCounter × Option PyError :=
  match lookupA (sideAt s li) tid with
  | none =>
    ({ s with
        tracker_state_batch := s.tracker_state_batch.set li (setA (sideAt s li) tid trig),
        tracker_line := setA s.tracker_line tid [cid] }, none)
  | some prev =>
    if prev = trig then (s, none)
    else
      let s1 : LineCounter :=
        { s with
            tracker_state_batch := s.tracker_state_batch.set li (setA (sideAt s li) tid trig) }
      match lookupA s1.tracker_line tid with
      | none => (s1, some (.keyErrorLog tid))
      | some log =>
        let s2 : LineCounter := { s1 with tracker_line := setA s1.tracker_line tid (log ++ [li]) }
        match lookupA s2.class_name_dict cid with
        | none => (s2, some (.keyErrorClass cid))
        | some name =>
          if trig then
            match lookupA (insAt s2 li) name with
            | none => (s2, some (.keyErrorCount name))
            | some c =>
              ({ s2 with
                  in_count_dict_batch :=
                    s2.in_count_dict_batch.set li (setA (insAt s2 li) name (c + 1)) }, none)
          else
            match lookupA (outsAt s2 li) name with
            | none => (s2, some (.keyErrorCount name))
            | some c =>
              ({ s2 with
                  out_count_dict_batch :=
                    s2.out_count_dict_batch.set li (setA (outsAt s2 li) name (c + 1)) }, none)

/-- The line loop of `update` over the remaining side-test results,
starting at line index `li`; an exception aborts the loop. -/
def loopLines (tid cid : Nat) : Nat → List Bool → LineCounter → LineCounter × Option PyError
  | _, [], s => (s, none)
  | li, trig :: rest, s =>
    match stepLine s tid cid li trig with
    | (s1, none) => loopLines tid cid (li + 1) rest s1
    | (s1, some e) => (s1, some e)

/-- The reference point `Point(x=(x1+x2)/2, y=(y1+y2)/2)` of a detection box. -/
def meanAnchor (d : Detection) : Point :=
  ⟨(d.xyxy.1 + d.xyxy.2.2.1) / 2, (d.xyxy.2.1 + d.xyxy.2.2.2) / 2⟩

/-- The per-detection body of `update`: skip null identities, compute the
side-test result for every line, then run the line loop. -/
def processDet (s : LineCounter) (d : Detection) : LineCounter × Option PyError :=
  match d.tracker_id with
  | none => (s, none)
  | some tid =>
    let p := meanAnchor d
    let triggers_batch := s.vector_batch.map (fun v => v.is_in p)
    loopLines tid d.class_id 0 triggers_batch s

/-- `LineCounter.update(detections)`: process detections in order; a raised
exception aborts the whole call, leaving the mutations made so far in place. -/
def LineCounter.update (s : LineCounter) : List Detection → LineCounter × Option PyError
  | [] => (s, none)
  | d :: ds =>
    match processDet s d with
    | (s1, none) => LineCounter.update s1 ds
    | (s1, some e) => (s1, some e)

/-- A sequence of `update` calls (the caller keeps the same object across
calls, whether or not an exception escaped an individual call). -/
def runUpdates : LineCounter → List (List Detection) → LineCounter
  | s, [] => s
  | s, ds :: dss => runUpdates (s.update ds).1 dss

/-- Side-test result of line `li` for point `p` (false when `li` is out of range). -/
def sideTestAt (s : LineCounter) (li : Nat) (p : Point) : Bool :=
  match s.vector_batch.get? li with
  | some v => v.is_in p
  | none => false

/-- Modelled from the spec: a detection produces a flip on line `li` from state
`s` when its identity has a recorded side for that line and the current
side-test result differs from it. -/
def detFlip (s : LineCounter) (li : Nat) (d : Detection) : Bool :=
  match d.tracker_id with
  | none => false
  | some tid =>
    match s.vector_batch.get? li, lookupA (sideAt s li) tid with
    | some v, some prev => prev != v.is_in (meanAnchor d)
    | _, _ => false

/-- Number of flips on line `li` produced over one `update` call's detections. -/
def flipsUpdate (li : Nat) : LineCounter → List Detection → Nat
  | _, [] => 0
  | s, d :: ds => (if detFlip s li d then 1 else 0) + flipsUpdate li (processDet s d).1 ds

/-- Number of flips on line `li` over a sequence of `update` calls. -/
def flipsRun (li : Nat) : LineCounter → List (List Detection) → Nat
  | _, [] => 0
  | s, ds :: dss => flipsUpdate li s ds + flipsRun li (s.update ds).1 dss

/-- Sum of all values of one counts dictionary. -/
def sumCounts (dct : List (String × Int)) : Int :=
  dct.foldr (fun p acc => p.2 + acc) 0

/-- Sum over all classes of (inCount + outCount) for line `li`. -/
def lineTotal (s : LineCounter) (li : Nat) : Int :=
  sumCounts (insAt s li) + sumCounts (outsAt s li)

/-- Pointwise order on counts dictionaries: same keys, each value nondecreasing. -/
def CountsLe (d1 d2 : List (String × Int)) : Prop :=
  (∀ k c, lookupA d1 k = some c → ∃ c2, lookupA d2 k = some c2 ∧ c ≤ c2) ∧
  (∀ k, lookupA d1 k = none → lookupA d2 k = none)

/-- Well-formedness of a tracker state: the per-line batches are in lockstep
with the configured lines, every identity with a recorded side has a crossing
log entry, and every configured class id resolves to a name with an entry in
every line's count dictionaries. -/
def Good (s : LineCounter) : Prop :=
  s.in_count_dict_batch.length = s.vector_batch.length ∧
  s.out_count_dict_batch.length = s.vector_batch.length ∧
  s.tracker_state_batch.length = s.vector_batch.length ∧
  (∀ li tid, (lookupA (sideAt s li) tid).isSome → (lookupA s.tracker_line tid).isSome) ∧
  (∀ cid, cid ∈ s.class_id → ∃ name, lookupA s.class_name_dict cid = some name ∧
    ∀ li, li < s.vector_batch.length →
      (lookupA (insAt s li) name).isSome ∧ (lookupA (outsAt s li) name).isSome)

/-- State after line 91 of the source: `tracker_state_batch[li][tid] = trig`. -/
def sideWrite (s : LineCounter) (tid li : Nat) (trig : Bool) : LineCounter :=
  { s with tracker_state_batch := s.tracker_state_batch.set li (setA (sideAt s li) tid trig) }

/-- State after line 94 of the source: `tracker_line[tid].append(li)`. -/
def logAppend (s : LineCounter) (tid li : Nat) (log : List Nat) : LineCounter :=
  { s with tracker_line := setA s.tracker_line tid (log ++ [li]) }

/-- State after line 96 of the source: `in_count_dict_batch[li][name] += 1`. -/
def insBump (s : LineCounter) (li : Nat) (name : String) (c : Int) : LineCounter :=
  { s with in_count_dict_batch := s.in_count_dict_batch.set li (setA (insAt s li) name (c + 1)) }

/-- State after line 98 of the source: `out_count_dict_batch[li][name] += 1`. -/
def outsBump (s : LineCounter) (li : Nat) (name : String) (c : Int) : LineCounter :=
  { s with out_count_dict_batch := s.out_count_dict_batch.set li (setA (outsAt s li) name (c + 1)) }

/-- Facts preserved by every state transition of the update loop, whatever the
identity being processed: configuration fields are constant, batch lengths are
constant, keys of the crossing log and of the count dictionaries are never
removed, and counts never decrease. -/
def TransProps (s r : LineCounter) : Prop :=
  r.vector_batch = s.vector_batch ∧
  r.class_id = s.class_id ∧
  r.class_name_dict = s.class_name_dict ∧
  r.in_count_dict_batch.length = s.in_count_dict_batch.length ∧
  r.out_count_dict_batch.length = s.out_count_dict_batch.length ∧
  r.tracker_state_batch.length = s.tracker_state_batch.length ∧
  (∀ t2, (lookupA s.tracker_line t2).isSome → (lookupA r.tracker_line t2).isSome) ∧
  (∀ j n2, (lookupA (insAt s j) n2).isSome → (lookupA (insAt r j) n2).isSome) ∧
  (∀ j n2, (lookupA (outsAt s j) n2).isSome → (lookupA (outsAt r j) n2).isSome) ∧
  (∀ j, CountsLe (insAt s j) (insAt r j) ∧ CountsLe (outsAt s j) (outsAt r j))

/-- Characterization of the effect of one `update` call on line `j` for the
processed identity `tid` (with resolved class name `name`) whose side-test
result on line `j` is `trig`: the side map records `trig`; a fresh identity or
an unchanged side leaves the counts untouched; a flip bumps exactly the
matching directional count of `name` by one and leaves the other dictionary
untouched. -/
def FlipChar (sOld sNew : LineCounter) (tid : Nat) (name : String) (j : Nat) (trig : Bool) :
    Prop :=
  sideAt sNew j = setA (sideAt sOld j) tid trig ∧
  (lookupA (sideAt sOld j) tid = none →
    insAt sNew j = insAt sOld j ∧ outsAt sNew j = outsAt sOld j) ∧
  (∀ prev, lookupA (sideAt sOld j) tid = some prev →
    (prev = trig → insAt sNew j = insAt sOld j ∧ outsAt sNew j = outsAt sOld j) ∧
    (prev ≠ trig →
      (trig = true →
        (∃ c, lookupA (insAt sOld j) name = some c ∧
          lookupA (insAt sNew j) name = some (c + 1) ∧
          insAt sNew j = setA (insAt sOld j) name (c + 1)) ∧
        outsAt sNew j = outsAt sOld j) ∧
      (trig = false →
        (∃ c, lookupA (outsAt sOld j) name = some c ∧
          lookupA (outsAt sNew j) name = some (c + 1) ∧
          outsAt sNew j = setA (outsAt sOld j) name (c + 1)) ∧
        insAt sNew j = insAt sOld j)))

/-- Example configuration: one vertical counting line from (0,0) to (0,100). -/
def exStart : List Point := [⟨0, 0⟩]

def exEnd : List Point := [⟨0, 100⟩]

/-- Example class registry: ids 0 ("car") and 7 ("truck"). -/
def exCids : List Nat := [0, 7]

def exCnd : List (Nat × String) := [(0, "car"), (7, "truck")]

/-- The tracker constructed from the example configuration. -/
def exS0 : LineCounter :=
  match LineCounter.init exStart exEnd exCids exCnd with
  | .ok s => s
  | .error _ => default

/-- A car (class 0, identity 1) whose box center is at (5, 50). -/
def exDetA : Detection := ⟨(4, 49, 6, 51), 1, 0, some 1⟩

/-- The same identity moved across the line: box center (-5, 50). -/
def exDetB : Detection := ⟨(-6, 49, -4, 51), 1, 0, some 1⟩

def exS1 : LineCounter := (exS0.update [exDetA]).1

/-- An observation with unregistered class id 5 (identity 9) at (5, 50). -/
def exDetBad : Detection := ⟨(4, 49, 6, 51), 1, 5, some 9⟩

/-- The same unregistered-class identity moved across the line. -/
def exDetBadMoved : Detection := ⟨(-6, 49, -4, 51), 1, 5, some 9⟩

/-- A valid observation (class 0, identity 2) at (5, 50). -/
def exDetGood : Detection := ⟨(4, 49, 6, 51), 1, 0, some 2⟩

def exS1bad : LineCounter := (exS0.update [exDetBad]).1

/-- A truck (class 7, identity 3) at (5, 50). -/
def exDet7 : Detection := ⟨(4, 49, 6, 51), 1, 7, some 3⟩

/-- A run with two flips of identity 1. -/
def exDss : List (List Detection) := [[exDetA], [exDetB], [exDetB], [exDetA]]

/-- A two-line example configuration. -/
def ex2Start : List Point := [⟨0, 0⟩, ⟨50, 0⟩]

def ex2End : List Point := [⟨0, 100⟩, ⟨50, 100⟩]

def ex2S0 : LineCounter :=
  match LineCounter.init ex2Start ex2End exCids exCnd with
  | .ok s => s
  | .error _ => default

theorem lookupA_setA_self {α β : Type} [DecidableEq α] (L : List (α × β)) (a : α) (b : β) :
    lookupA (setA L a b) a = some b := by
  induction L with
  | nil => simp [setA, lookupA]
  | cons p rest ih =>
    obtain ⟨k, v⟩ := p
    by_cases h : k = a
    · subst h; simp [setA, lookupA]
    · simp [setA, lookupA, h, ih]

theorem lookupA_setA_ne {α β : Type} [DecidableEq α] (L : List (α × β)) (a k : α) (b : β)
    (h : k ≠ a) : lookupA (setA L a b) k = lookupA L k := by
  induction L with
  | nil => simp [setA, lookupA, Ne.symm h]
  | cons p rest ih =>
    obtain ⟨k0, v0⟩ := p
    by_cases h0 : k0 = a
    · subst h0
      simp [setA, lookupA, Ne.symm h]
    · simp [setA, lookupA, h0, ih]

theorem isSome_lookupA_setA {α β : Type} [DecidableEq α] (L : List (α × β)) (a k : α) (b : β)
    (h : (lookupA L k).isSome) : (lookupA (setA L a b) k).isSome := by
  by_cases hk : k = a
  · subst hk; simp [lookupA_setA_self]
  · rw [lookupA_setA_ne L a k b hk]; exact h

theorem setA_eq_of_lookup {α β : Type} [DecidableEq α] (L : List (α × β)) (a : α) (b : β)
    (h : lookupA L a = some b) : setA L a b = L := by
  induction L with
  | nil => simp [lookupA] at h
  | cons p rest ih =>
    obtain ⟨k0, v0⟩ := p
    by_cases h0 : k0 = a
    · subst h0
      simp [lookupA] at h
      simp [setA, h]
    · simp [lookupA, h0] at h
      simp [setA, h0, ih h]

theorem setA_setA {α β : Type} [DecidableEq α] (L : List (α × β)) (a : α) (b b2 : β) :
    setA (setA L a b) a b2 = setA L a b2 := by
  induction L with
  | nil => simp [setA]
  | cons p rest ih =>
    obtain ⟨k0, v0⟩ := p
    by_cases h0 : k0 = a
    · simp [setA, h0]
    · simp [setA, h0, ih]

theorem sumCounts_cons (p : String × Int) (L : List (String × Int)) :
    sumCounts (p :: L) = p.2 + sumCounts L := rfl

theorem sumCounts_setA (L : List (String × Int)) (k : String) (c : Int)
    (h : lookupA L k = some c) : sumCounts (setA L k (c + 1)) = sumCounts L + 1 := by
  induction L with
  | nil => simp [lookupA] at h
  | cons p rest ih =>
    obtain ⟨k0, v0⟩ := p
    by_cases h0 : k0 = k
    · subst h0
      simp [lookupA] at h
      subst h
      simp [setA, sumCounts_cons]
      ring
    · simp [lookupA, h0] at h
      have step : setA ((k0, v0) :: rest) k (c + 1) = (k0, v0) :: setA rest k (c + 1) := by
        simp [setA, h0]
      rw [step, sumCounts_cons, sumCounts_cons, ih h]
      ring

theorem nthD_set_eq {α : Type} (L : List α) (i : Nat) (x d : α) (h : i < L.length) :
    nthD (L.set i x) i d = x := by
  induction L generalizing i with
  | nil => simp at h
  | cons a rest ih =>
    cases i with
    | zero => simp [nthD, List.set]
    | succ n =>
      simp at h
      simpa [nthD, List.set] using ih n h

theorem nthD_set_ne {α : Type} (L : List α) (i j : Nat) (x d : α) (h : i ≠ j) :
    nthD (L.set i x) j d = nthD L j d := by
  induction L generalizing i j with
  | nil => simp [List.set]
  | cons a rest ih =>
    cases i with
    | zero =>
      cases j with
      | zero => exact absurd rfl h
      | succ m => simp [nthD, List.set]
    | succ n =>
      cases j with
      | zero => simp [nthD, List.set]
      | succ m =>
        have h2 : n ≠ m := by omega
        simpa [nthD, List.set] using ih n m h2

theorem nthD_ge {α : Type} (L : List α) (i : Nat) (d : α) (h : L.length ≤ i) :
    nthD L i d = d := by
  induction L generalizing i with
  | nil => cases i <;> simp [nthD]
  | cons a rest ih =>
    cases i with
    | zero => simp at h
    | succ n =>
      simp at h
      simpa [nthD] using ih n h

theorem nthD_replicate {α : Type} (n i : Nat) (x d : α) (h : i < n) :
    nthD (List.replicate n x) i d = x := by
  induction n generalizing i with
  | zero => omega
  | succ m ih =>
    cases i with
    | zero => simp [nthD, List.replicate]
    | succ k =>
      have h2 : k < m := by omega
      simpa [nthD, List.replicate] using ih k h2

theorem get?_lt {α : Type} (L : List α) (i : Nat) (h : i < L.length) :
    ∃ a, L.get? i = some a := by
  induction L generalizing i with
  | nil => simp at h
  | cons x rest ih =>
    cases i with
    | zero => exact ⟨x, rfl⟩
    | succ n =>
      simp at h
      simpa using ih n h

theorem CountsLe_refl (d : List (String × Int)) : CountsLe d d :=
  ⟨fun k c h => ⟨c, h, le_refl c⟩, fun _ h => h⟩

theorem CountsLe_trans {d1 d2 d3 : List (String × Int)}
    (h12 : CountsLe d1 d2) (h23 : CountsLe d2 d3) : CountsLe d1 d3 := by
  constructor
  · intro k c h
    obtain ⟨c2, h2, le2⟩ := h12.1 k c h
    obtain ⟨c3, h3, le3⟩ := h23.1 k c2 h2
    exact ⟨c3, h3, le_trans le2 le3⟩
  · intro k h
    exact h23.2 k (h12.2 k h)

theorem CountsLe_setA_incr (L : List (String × Int)) (k : String) (c : Int)
    (h : lookupA L k = some c) : CountsLe L (setA L k (c + 1)) := by
  constructor
  · intro k2 c2 h2
    by_cases hk : k2 = k
    · subst hk
      have h3 : c2 = c := by rw [h2] at h; injection h
      subst h3
      exact ⟨c2 + 1, lookupA_setA_self L k2 (c2 + 1), by omega⟩
    · exact ⟨c2, by rw [lookupA_setA_ne L k k2 (c + 1) hk]; exact h2, le_refl c2⟩
  · intro k2 h2
    by_cases hk : k2 = k
    · subst hk; rw [h2] at h; cases h
    · rw [lookupA_setA_ne L k k2 (c + 1) hk]; exact h2

theorem stepLine_fresh (s : LineCounter) (tid cid li : Nat) (trig : Bool)
    (h : lookupA (sideAt s li) tid = none) :
    stepLine s tid cid li trig =
      ({ sideWrite s tid li trig with tracker_line := setA s.tracker_line tid [cid] }, none) := by
  unfold stepLine sideWrite
  rw [h]

theorem stepLine_same (s : LineCounter) (tid cid li : Nat) (trig : Bool)
    (h : lookupA (sideAt s li) tid = some trig) :
    stepLine s tid cid li trig = (s, none) := by
  unfold stepLine
  rw [h]
  simp

theorem stepLine_flip_noLog (s : LineCounter) (tid cid li : Nat) (trig prev : Bool)
    (hprev : lookupA (sideAt s li) tid = some prev) (hne : prev ≠ trig)
    (hlog : lookupA s.tracker_line tid = none) :
    stepLine s tid cid li trig = (sideWrite s tid li trig, some (.keyErrorLog tid)) := by
  unfold stepLine sideWrite
  rw [hprev]
  try dsimp only
  rw [if_neg hne]
  try dsimp only
  rw [hlog]

theorem stepLine_flip_noClass (s : LineCounter) (tid cid li : Nat) (trig prev : Bool)
    (log : List Nat)
    (hprev : lookupA (sideAt s li) tid = some prev) (hne : prev ≠ trig)
    (hlog : lookupA s.tracker_line tid = some log)
    (hcnd : lookupA s.class_name_dict cid = none) :
    stepLine s tid cid li trig =
      (logAppend (sideWrite s tid li trig) tid li log, some (.keyErrorClass cid)) := by
  unfold stepLine sideWrite logAppend
  rw [hprev]
  try dsimp only
  rw [if_neg hne]
  try dsimp only
  rw [hlog]
  try dsimp only
  rw [hcnd]

theorem stepLine_flip_in_noCount (s : LineCounter) (tid cid li : Nat) (prev : Bool)
    (log : List Nat) (name : String)
    (hprev : lookupA (sideAt s li) tid = some prev) (hne : prev ≠ true)
    (hlog : lookupA s.tracker_line tid = some log)
    (hcnd : lookupA s.class_name_dict cid = some name)
    (hc : lookupA (insAt s li) name = none) :
    stepLine s tid cid li true =
      (logAppend (sideWrite s tid li true) tid li log, some (.keyErrorCount name)) := by
  unfold stepLine sideWrite logAppend
  rw [hprev]
  try dsimp only
  rw [if_neg hne]
  try dsimp only
  rw [hlog]
  try dsimp only
  rw [hcnd]
  try dsimp only
  rw [if_pos rfl]
  rw [show insAt { s with
      tracker_state_batch := s.tracker_state_batch.set li (setA (sideAt s li) tid true),
      tracker_line := setA s.tracker_line tid (log ++ [li]) } li = insAt s li from rfl]
  rw [hc]

theorem stepLine_flip_in (s : LineCounter) (tid cid li : Nat) (prev : Bool)
    (log : List Nat) (name : String) (c : Int)
    (hprev : lookupA (sideAt s li) tid = some prev) (hne : prev ≠ true)
    (hlog : lookupA s.tracker_line tid = some log)
    (hcnd : lookupA s.class_name_dict cid = some name)
    (hc : lookupA (insAt s li) name = some c) :
    stepLine s tid cid li true =
      (insBump (logAppend (sideWrite s tid li true) tid li log) li name c, none) := by
  unfold stepLine sideWrite logAppend insBump
  rw [hprev]
  try dsimp only
  rw [if_neg hne]
  try dsimp only
  rw [hlog]
  try dsimp only
  rw [hcnd]
  try dsimp only
  rw [if_pos rfl]
  rw [show insAt { s with
      tracker_state_batch := s.tracker_state_batch.set li (setA (sideAt s li) tid true),
      tracker_line := setA s.tracker_line tid (log ++ [li]) } li = insAt s li from rfl]
  rw [hc]

theorem stepLine_flip_out_noCount (s : LineCounter) (tid cid li : Nat) (prev : Bool)
    (log : List Nat) (name : String)
    (hprev : lookupA (sideAt s li) tid = some prev) (hne : prev ≠ false)
    (hlog : lookupA s.tracker_line tid = some log)
    (hcnd : lookupA s.class_name_dict cid = some name)
    (hc : lookupA (outsAt s li) name = none) :
    stepLine s tid cid li false =
      (logAppend (sideWrite s tid li false) tid li log, some (.keyErrorCount name)) := by
  unfold stepLine sideWrite logAppend
  rw [hprev]
  try dsimp only
  rw [if_neg hne]
  try dsimp only
  rw [hlog]
  try dsimp only
  rw [hcnd]
  try dsimp only
  rw [if_neg (by simp)]
  rw [show outsAt { s with
      tracker_state_batch := s.tracker_state_batch.set li (setA (sideAt s li) tid false),
      tracker_line := setA s.tracker_line tid (log ++ [li]) } li = outsAt s li from rfl]
  rw [hc]

theorem set_oob {α : Type} (L : List α) (i : Nat) (x : α) (h : L.length ≤ i) :
    L.set i x = L := by
  induction L generalizing i with
  | nil => simp
  | cons a rest ih =>
    cases i with
    | zero => simp at h
    | succ n =>
      simp at h
      simp [List.set, ih n h]

theorem TransProps_refl (s : LineCounter) : TransProps s s :=
  ⟨rfl, rfl, rfl, rfl, rfl, rfl, fun _ h => h, fun _ _ h => h, fun _ _ h => h,
    fun j => ⟨CountsLe_refl (insAt s j), CountsLe_refl (outsAt s j)⟩⟩

theorem TransProps_trans {s r t : LineCounter} (h1 : TransProps s r) (h2 : TransProps r t) :
    TransProps s t := by
  obtain ⟨a1, b1, c1, d1, e1, f1, g1, h1i, h1o, h1c⟩ := h1
  obtain ⟨a2, b2, c2, d2, e2, f2, g2, h2i, h2o, h2c⟩ := h2
  refine ⟨a2.trans a1, b2.trans b1, c2.trans c1, d2.trans d1, e2.trans e1, f2.trans f1,
    fun t2 h => g2 t2 (g1 t2 h), fun j n2 h => h2i j n2 (h1i j n2 h),
    fun j n2 h => h2o j n2 (h1o j n2 h), fun j => ?_⟩
  exact ⟨CountsLe_trans (h1c j).1 (h2c j).1, CountsLe_trans (h1c j).2 (h2c j).2⟩

theorem tp_sideWrite (s : LineCounter) (tid li : Nat) (trig : Bool) :
    TransProps s (sideWrite s tid li trig) := by
  refine ⟨rfl, rfl, rfl, rfl, rfl, ?_, fun _ h => h, fun _ _ h => h, fun _ _ h => h,
    fun j => ⟨CountsLe_refl _, CountsLe_refl _⟩⟩
  simp [sideWrite]

theorem tp_logSet (s : LineCounter) (tid : Nat) (X : List Nat) :
    TransProps s { s with tracker_line := setA s.tracker_line tid X } := by
  refine ⟨rfl, rfl, rfl, rfl, rfl, rfl, ?_, fun _ _ h => h, fun _ _ h => h,
    fun j => ⟨CountsLe_refl _, CountsLe_refl _⟩⟩
  intro t2 h
  exact isSome_lookupA_setA s.tracker_line tid t2 X h

theorem insBump_insAt_ne (s : LineCounter) (li : Nat) (name : String) (c : Int) (j : Nat)
    (h : j ≠ li) : insAt (insBump s li name c) j = insAt s j := by
  simp only [insBump, insAt]
  exact nthD_set_ne s.in_count_dict_batch li j _ [] (fun e => h e.symm)

theorem insBump_insAt_self (s : LineCounter) (li : Nat) (name : String) (c : Int)
    (h : li < s.in_count_dict_batch.length) :
    insAt (insBump s li name c) li = setA (insAt s li) name (c + 1) := by
  simp only [insBump, insAt]
  exact nthD_set_eq s.in_count_dict_batch li _ [] h

theorem outsBump_outsAt_ne (s : LineCounter) (li : Nat) (name : String) (c : Int) (j : Nat)
    (h : j ≠ li) : outsAt (outsBump s li name c) j = outsAt s j := by
  simp only [outsBump, outsAt]
  exact nthD_set_ne s.out_count_dict_batch li j _ [] (fun e => h e.symm)

theorem outsBump_outsAt_self (s : LineCounter) (li : Nat) (name : String) (c : Int)
    (h : li < s.out_count_dict_batch.length) :
    outsAt (outsBump s li name c) li = setA (outsAt s li) name (c + 1) := by
  simp only [outsBump, outsAt]
  exact nthD_set_eq s.out_count_dict_batch li _ [] h

theorem tp_insBump (s : LineCounter) (li : Nat) (name : String) (c : Int)
    (hc : lookupA (insAt s li) name = some c) :
    TransProps s (insBump s li name c) := by
  have hins : ∀ j, insAt (insBump s li name c) j = insAt s j ∨
      insAt (insBump s li name c) j = setA (insAt s li) name (c + 1) ∧ j = li := by
    intro j
    by_cases hj : j = li
    · subst hj
      by_cases hlt : j < s.in_count_dict_batch.length
      · exact Or.inr ⟨insBump_insAt_self s j name c hlt, rfl⟩
      · left
        simp only [insBump, insAt]
        rw [set_oob s.in_count_dict_batch j _ (by omega)]
    · exact Or.inl (insBump_insAt_ne s li name c j hj)
  refine ⟨rfl, rfl, rfl, ?_, rfl, rfl, fun _ h => h, ?_, fun _ _ h => h, fun j => ⟨?_, CountsLe_refl _⟩⟩
  · simp [insBump]
  · intro j n2 h
    rcases hins j with hj | ⟨hj, rfl⟩
    · rw [hj]; exact h
    · rw [hj]
      exact isSome_lookupA_setA (insAt s j) name n2 (c + 1) h
  · rcases hins j with hj | ⟨hj, rfl⟩
    · rw [hj]; exact CountsLe_refl _
    · rw [hj]
      exact CountsLe_setA_incr (insAt s j) name c hc

theorem tp_outsBump (s : LineCounter) (li : Nat) (name : String) (c : Int)
    (hc : lookupA (outsAt s li) name = some c) :
    TransProps s (outsBump s li name c) := by
  have houts : ∀ j, outsAt (outsBump s li name c) j = outsAt s j ∨
      outsAt (outsBump s li name c) j = setA (outsAt s li) name (c + 1) ∧ j = li := by
    intro j
    by_cases hj : j = li
    · subst hj
      by_cases hlt : j < s.out_count_dict_batch.length
      · exact Or.inr ⟨outsBump_outsAt_self s j name c hlt, rfl⟩
      · left
        simp only [outsBump, outsAt]
        rw [set_oob s.out_count_dict_batch j _ (by omega)]
    · exact Or.inl (outsBump_outsAt_ne s li name c j hj)
  refine ⟨rfl, rfl, rfl, rfl, ?_, rfl, fun _ h => h, fun _ _ h => h, ?_, fun j => ⟨CountsLe_refl _, ?_⟩⟩
  · simp [outsBump]
  · intro j n2 h
    rcases houts j with hj | ⟨hj, rfl⟩
    · rw [hj]; exact h
    · rw [hj]
      exact isSome_lookupA_setA (outsAt s j) name n2 (c + 1) h
  · rcases houts j with hj | ⟨hj, rfl⟩
    · rw [hj]; exact CountsLe_refl _
    · rw [hj]
      exact CountsLe_setA_incr (outsAt s j) name c hc

theorem stepLine_flip_out (s : LineCounter) (tid cid li : Nat) (prev : Bool)
    (log : List Nat) (name : String) (c : Int)
    (hprev : lookupA (sideAt s li) tid = some prev) (hne : prev ≠ false)
    (hlog : lookupA s.tracker_line tid = some log)
    (hcnd : lookupA s.class_name_dict cid = some name)
    (hc : lookupA (outsAt s li) name = some c) :
    stepLine s tid cid li false =
      (outsBump (logAppend (sideWrite s tid li false) tid li log) li name c, none) := by
  unfold stepLine sideWrite logAppend outsBump
  rw [hprev]
  try dsimp only
  rw [if_neg hne]
  try dsimp only
  rw [hlog]
  try dsimp only
  rw [hcnd]
  try dsimp only
  rw [if_neg (by simp)]
  rw [show outsAt { s with
      tracker_state_batch := s.tracker_state_batch.set li (setA (sideAt s li) tid false),
      tracker_line := setA s.tracker_line tid (log ++ [li]) } li = outsAt s li from rfl]
  rw [hc]

/-- Skeleton case analysis: every branch of `stepLine` satisfies `TransProps`. -/
theorem stepLine_tp (s : LineCounter) (tid cid li : Nat) (trig : Bool) :
    TransProps s (stepLine s tid cid li trig).1 := by
  cases hside : lookupA (sideAt s li) tid with
  | none =>
    rw [stepLine_fresh s tid cid li trig hside]
    exact TransProps_trans (tp_sideWrite s tid li trig)
      (tp_logSet (sideWrite s tid li trig) tid [cid])
  | some prev =>
    by_cases heq : prev = trig
    · subst heq
      rw [stepLine_same s tid cid li prev hside]
      exact TransProps_refl s
    · cases hlog : lookupA s.tracker_line tid with
      | none =>
        rw [stepLine_flip_noLog s tid cid li trig prev hside heq hlog]
        exact tp_sideWrite s tid li trig
      | some log =>
        cases hcnd : lookupA s.class_name_dict cid with
        | none =>
          rw [stepLine_flip_noClass s tid cid li trig prev log hside heq hlog hcnd]
          exact TransProps_trans (tp_sideWrite s tid li trig)
            (tp_logSet (sideWrite s tid li trig) tid (log ++ [li]))
        | some name =>
          cases trig with
          | true =>
            cases hc : lookupA (insAt s li) name with
            | none =>
              rw [stepLine_flip_in_noCount s tid cid li prev log name hside heq hlog hcnd hc]
              exact TransProps_trans (tp_sideWrite s tid li true)
                (tp_logSet (sideWrite s tid li true) tid (log ++ [li]))
            | some c =>
              rw [stepLine_flip_in s tid cid li prev log name c hside heq hlog hcnd hc]
              refine TransProps_trans (tp_sideWrite s tid li true)
                (TransProps_trans (tp_logSet (sideWrite s tid li true) tid (log ++ [li])) ?_)
              exact tp_insBump (logAppend (sideWrite s tid li true) tid li log) li name c hc
          | false =>
            cases hc : lookupA (outsAt s li) name with
            | none =>
              rw [stepLine_flip_out_noCount s tid cid li prev log name hside heq hlog hcnd hc]
              exact TransProps_trans (tp_sideWrite s tid li false)
                (tp_logSet (sideWrite s tid li false) tid (log ++ [li]))
            | some c =>
              rw [stepLine_flip_out s tid cid li prev log name c hside heq hlog hcnd hc]
              refine TransProps_trans (tp_sideWrite s tid li false)
                (TransProps_trans (tp_logSet (sideWrite s tid li false) tid (log ++ [li])) ?_)
              exact tp_outsBump (logAppend (sideWrite s tid li false) tid li log) li name c hc

theorem sideWrite_side_other (s : LineCounter) (tid li : Nat) (trig : Bool) (j t2 : Nat)
    (h : t2 ≠ tid) :
    lookupA (sideAt (sideWrite s tid li trig) j) t2 = lookupA (sideAt s j) t2 := by
  by_cases hj : j = li
  · subst hj
    by_cases hlt : j < s.tracker_state_batch.length
    · have : sideAt (sideWrite s tid j trig) j = setA (sideAt s j) tid trig := by
        simp only [sideWrite, sideAt]
        exact nthD_set_eq s.tracker_state_batch j _ [] hlt
      rw [this]
      exact lookupA_setA_ne (sideAt s j) tid t2 trig h
    · have : sideAt (sideWrite s tid j trig) j = sideAt s j := by
        simp only [sideWrite, sideAt]
        rw [set_oob s.tracker_state_batch j _ (by omega)]
      rw [this]
  · have : sideAt (sideWrite s tid li trig) j = sideAt s j := by
      simp only [sideWrite, sideAt]
      exact nthD_set_ne s.tracker_state_batch li j _ [] (fun e => hj e.symm)
    rw [this]

/-- Processing one line for identity `tid` never changes the recorded side of
any other identity, on any line. -/
theorem stepLine_side_other (s : LineCounter) (tid cid li : Nat) (trig : Bool) (j t2 : Nat)
    (h : t2 ≠ tid) :
    lookupA (sideAt (stepLine s tid cid li trig).1 j) t2 = lookupA (sideAt s j) t2 := by
  cases hside : lookupA (sideAt s li) tid with
  | none =>
    rw [stepLine_fresh s tid cid li trig hside]
    exact sideWrite_side_other s tid li trig j t2 h
  | some prev =>
    by_cases heq : prev = trig
    · subst heq
      rw [stepLine_same s tid cid li prev hside]
    · cases hlog : lookupA s.tracker_line tid with
      | none =>
        rw [stepLine_flip_noLog s tid cid li trig prev hside heq hlog]
        exact sideWrite_side_other s tid li trig j t2 h
      | some log =>
        cases hcnd : lookupA s.class_name_dict cid with
        | none =>
          rw [stepLine_flip_noClass s tid cid li trig prev log hside heq hlog hcnd]
          exact sideWrite_side_other s tid li trig j t2 h
        | some name =>
          cases trig with
          | true =>
            cases hc : lookupA (insAt s li) name with
            | none =>
              rw [stepLine_flip_in_noCount s tid cid li prev log name hside heq hlog hcnd hc]
              exact sideWrite_side_other s tid li true j t2 h
            | some c =>
              rw [stepLine_flip_in s tid cid li prev log name c hside heq hlog hcnd hc]
              exact sideWrite_side_other s tid li true j t2 h
          | false =>
            cases hc : lookupA (outsAt s li) name with
            | none =>
              rw [stepLine_flip_out_noCount s tid cid li prev log name hside heq hlog hcnd hc]
              exact sideWrite_side_other s tid li false j t2 h
            | some c =>
              rw [stepLine_flip_out s tid cid li prev log name c hside heq hlog hcnd hc]
              exact sideWrite_side_other s tid li false j t2 h

/-- Frame property: processing line `li` never touches another line's side map
or count dictionaries. -/
theorem stepLine_frame (s : LineCounter) (tid cid li : Nat) (trig : Bool) (j : Nat)
    (h : j ≠ li) :
    sideAt (stepLine s tid cid li trig).1 j = sideAt s j ∧
    insAt (stepLine s tid cid li trig).1 j = insAt s j ∧
    outsAt (stepLine s tid cid li trig).1 j = outsAt s j := by
  have hne : li ≠ j := fun e => h e.symm
  have hsw : ∀ trig2, sideAt (sideWrite s tid li trig2) j = sideAt s j := by
    intro trig2
    simp only [sideWrite, sideAt]
    exact nthD_set_ne s.tracker_state_batch li j _ [] hne
  cases hside : lookupA (sideAt s li) tid with
  | none =>
    rw [stepLine_fresh s tid cid li trig hside]
    exact ⟨hsw trig, rfl, rfl⟩
  | some prev =>
    by_cases heq : prev = trig
    · subst heq
      rw [stepLine_same s tid cid li prev hside]
      exact ⟨rfl, rfl, rfl⟩
    · cases hlog : lookupA s.tracker_line tid with
      | none =>
        rw [stepLine_flip_noLog s tid cid li trig prev hside heq hlog]
        exact ⟨hsw trig, rfl, rfl⟩
      | some log =>
        cases hcnd : lookupA s.class_name_dict cid with
        | none =>
          rw [stepLine_flip_noClass s tid cid li trig prev log hside heq hlog hcnd]
          exact ⟨hsw trig, rfl, rfl⟩
        | some name =>
          cases trig with
          | true =>
            cases hc : lookupA (insAt s li) name with
            | none =>
              rw [stepLine_flip_in_noCount s tid cid li prev log name hside heq hlog hcnd hc]
              exact ⟨hsw true, rfl, rfl⟩
            | some c =>
              rw [stepLine_flip_in s tid cid li prev log name c hside heq hlog hcnd hc]
              refine ⟨hsw true, ?_, rfl⟩
              exact insBump_insAt_ne (logAppend (sideWrite s tid li true) tid li log) li name c j h
          | false =>
            cases hc : lookupA (outsAt s li) name with
            | none =>
              rw [stepLine_flip_out_noCount s tid cid li prev log name hside heq hlog hcnd hc]
              exact ⟨hsw false, rfl, rfl⟩
            | some c =>
              rw [stepLine_flip_out s tid cid li prev log name c hside heq hlog hcnd hc]
              refine ⟨hsw false, rfl, ?_⟩
              exact outsBump_outsAt_ne (logAppend (sideWrite s tid li false) tid li log) li name c j h

theorem loopLines_tp (tid cid : Nat) :
    ∀ (triggers : List Bool) (li0 : Nat) (s : LineCounter),
      TransProps s (loopLines tid cid li0 triggers s).1 := by
  intro triggers
  induction triggers with
  | nil => intro li0 s; exact TransProps_refl s
  | cons t rest ih =>
    intro li0 s
    show TransProps s (loopLines tid cid li0 (t :: rest) s).1
    rw [loopLines]
    cases hstep : stepLine s tid cid li0 t with
    | mk s1 e =>
      have h1 : TransProps s s1 := by
        have := stepLine_tp s tid cid li0 t
        rw [hstep] at this
        exact this
      cases e with
      | none => exact TransProps_trans h1 (ih (li0 + 1) s1)
      | some err => exact h1

theorem loopLines_side_other (tid cid : Nat) :
    ∀ (triggers : List Bool) (li0 : Nat) (s : LineCounter) (j t2 : Nat), t2 ≠ tid →
      lookupA (sideAt (loopLines tid cid li0 triggers s).1 j) t2 = lookupA (sideAt s j) t2 := by
  intro triggers
  induction triggers with
  | nil => intro li0 s j t2 _; rfl
  | cons t rest ih =>
    intro li0 s j t2 h
    rw [loopLines]
    cases hstep : stepLine s tid cid li0 t with
    | mk s1 e =>
      have h1 : lookupA (sideAt s1 j) t2 = lookupA (sideAt s j) t2 := by
        have := stepLine_side_other s tid cid li0 t j t2 h
        rw [hstep] at this
        exact this
      cases e with
      | none =>
        show lookupA (sideAt (loopLines tid cid (li0 + 1) rest s1).1 j) t2 = _
        rw [ih (li0 + 1) s1 j t2 h, h1]
      | some err => exact h1

theorem processDet_tp (s : LineCounter) (d : Detection) :
    TransProps s (processDet s d).1 := by
  unfold processDet
  cases d.tracker_id with
  | none => exact TransProps_refl s
  | some tid => exact loopLines_tp tid d.class_id _ 0 s

theorem update_tp (ds : List Detection) : ∀ (s : LineCounter),
    TransProps s (s.update ds).1 := by
  induction ds with
  | nil => intro s; exact TransProps_refl s
  | cons d rest ih =>
    intro s
    show TransProps s (s.update (d :: rest)).1
    rw [LineCounter.update]
    cases hp : processDet s d with
    | mk s1 e =>
      have h1 : TransProps s s1 := by
        have := processDet_tp s d
        rw [hp] at this
        exact this
      cases e with
      | none => exact TransProps_trans h1 (ih s1)
      | some err => exact h1

theorem runUpdates_tp (dss : List (List Detection)) : ∀ (s : LineCounter),
    TransProps s (runUpdates s dss) := by
  induction dss with
  | nil => intro s; exact TransProps_refl s
  | cons ds rest ih =>
    intro s
    show TransProps s (runUpdates (s.update ds).1 rest)
    exact TransProps_trans (update_tp ds s) (ih (s.update ds).1)

/-- Frame property of the line loop: indices outside the processed range are
untouched. -/
theorem loopLines_frame (tid cid : Nat) :
    ∀ (triggers : List Bool) (li0 : Nat) (s : LineCounter) (j : Nat),
      (j < li0 ∨ li0 + triggers.length ≤ j) →
      sideAt (loopLines tid cid li0 triggers s).1 j = sideAt s j ∧
      insAt (loopLines tid cid li0 triggers s).1 j = insAt s j ∧
      outsAt (loopLines tid cid li0 triggers s).1 j = outsAt s j := by
  intro triggers
  induction triggers with
  | nil => intro li0 s j _; exact ⟨rfl, rfl, rfl⟩
  | cons t rest ih =>
    intro li0 s j hj
    rw [loopLines]
    cases hstep : stepLine s tid cid li0 t with
    | mk s1 e =>
      have hne : j ≠ li0 := by
        rcases hj with h | h
        · omega
        · simp at h; omega
      have h1 := stepLine_frame s tid cid li0 t j hne
      rw [hstep] at h1
      cases e with
      | none =>
        have hj2 : j < li0 + 1 ∨ (li0 + 1) + rest.length ≤ j := by
          rcases hj with h | h
          · left; omega
          · right; simp at h; omega
        have h2 := ih (li0 + 1) s1 j hj2
        exact ⟨h2.1.trans h1.1, h2.2.1.trans h1.2.1, h2.2.2.trans h1.2.2⟩
      | some err => exact h1

/-- Processing an identity that is fresh on every covered line records its
side everywhere, raises nothing and leaves every count dictionary untouched. -/
theorem loopFresh (tid cid : Nat) :
    ∀ (triggers : List Bool) (li0 : Nat) (s : LineCounter),
      li0 + triggers.length ≤ s.tracker_state_batch.length →
      (∀ k trig2, triggers.get? k = some trig2 → lookupA (sideAt s (li0 + k)) tid = none) →
      (loopLines tid cid li0 triggers s).2 = none ∧
      (loopLines tid cid li0 triggers s).1.in_count_dict_batch = s.in_count_dict_batch ∧
      (loopLines tid cid li0 triggers s).1.out_count_dict_batch = s.out_count_dict_batch ∧
      (∀ k trig2, triggers.get? k = some trig2 →
        lookupA (sideAt (loopLines tid cid li0 triggers s).1 (li0 + k)) tid = some trig2) := by
  intro triggers
  induction triggers with
  | nil =>
    intro li0 s _ _
    refine ⟨rfl, rfl, rfl, ?_⟩
    intro k trig2 hk
    simp [List.get?] at hk
  | cons t rest ih =>
    intro li0 s hcov hfresh
    have hlen : li0 < s.tracker_state_batch.length := by simp at hcov; omega
    have hside : lookupA (sideAt s li0) tid = none := by
      have := hfresh 0 t rfl
      simpa using this
    rw [loopLines, stepLine_fresh s tid cid li0 t hside]
    dsimp only
    set s1 : LineCounter :=
      { sideWrite s tid li0 t with tracker_line := setA s.tracker_line tid [cid] } with hs1
    have hside1self : sideAt s1 li0 = setA (sideAt s li0) tid t := by
      rw [hs1]
      show nthD (s.tracker_state_batch.set li0 (setA (sideAt s li0) tid t)) li0 [] = _
      exact nthD_set_eq s.tracker_state_batch li0 _ [] hlen
    have hside1ne : ∀ j, j ≠ li0 → sideAt s1 j = sideAt s j := by
      intro j hj
      rw [hs1]
      show nthD (s.tracker_state_batch.set li0 (setA (sideAt s li0) tid t)) j [] = _
      exact nthD_set_ne s.tracker_state_batch li0 j _ [] (fun e => hj e.symm)
    have hcov1 : (li0 + 1) + rest.length ≤ s1.tracker_state_batch.length := by
      have : s1.tracker_state_batch.length = s.tracker_state_batch.length := by
        rw [hs1]
        show (s.tracker_state_batch.set li0 _).length = _
        simp
      rw [this]
      simp at hcov
      omega
    have hfresh1 : ∀ k trig2, rest.get? k = some trig2 →
        lookupA (sideAt s1 ((li0 + 1) + k)) tid = none := by
      intro k trig2 hk
      have hne : (li0 + 1) + k ≠ li0 := by omega
      rw [hside1ne _ hne]
      have := hfresh (k + 1) trig2 (by simpa using hk)
      have harith : li0 + (k + 1) = (li0 + 1) + k := by omega
      rwa [harith] at this
    obtain ⟨e1, i1, o1, r1⟩ := ih (li0 + 1) s1 hcov1 hfresh1
    refine ⟨e1, i1.trans (by rw [hs1]; rfl), o1.trans (by rw [hs1]; rfl), ?_⟩
    intro k trig2 hk
    cases k with
    | zero =>
      have ht : t = trig2 := by simpa using hk
      subst ht
      have hframe := (loopLines_frame tid cid rest (li0 + 1) s1 li0 (Or.inl (by omega))).1
      have harith : li0 + 0 = li0 := by omega
      rw [harith, hframe, hside1self]
      exact lookupA_setA_self (sideAt s li0) tid t
    | succ k2 =>
      have harith : li0 + (k2 + 1) = (li0 + 1) + k2 := by omega
      rw [harith]
      exact r1 k2 trig2 (by simpa using hk)

theorem FlipChar_congr {s0 s1 r : LineCounter} {tid : Nat} {name : String} {j : Nat}
    {trig : Bool}
    (h1 : sideAt s1 j = sideAt s0 j) (h2 : insAt s1 j = insAt s0 j)
    (h3 : outsAt s1 j = outsAt s0 j)
    (H : FlipChar s1 r tid name j trig) : FlipChar s0 r tid name j trig := by
  unfold FlipChar at H
  unfold FlipChar
  rw [h1, h2, h3] at H
  exact H

/-- Main loop lemma: when the processed identity's class resolves to a `name`
present in every line's count dictionaries, and the identity has a crossing
log entry whenever it has any recorded side, the line loop raises nothing and
its effect on each covered line is described by `FlipChar`. -/
theorem loopGood (tid cid : Nat) (name : String) :
    ∀ (triggers : List Bool) (li0 : Nat) (s : LineCounter),
      s.in_count_dict_batch.length = s.vector_batch.length →
      s.out_count_dict_batch.length = s.vector_batch.length →
      s.tracker_state_batch.length = s.vector_batch.length →
      li0 + triggers.length ≤ s.vector_batch.length →
      lookupA s.class_name_dict cid = some name →
      (∀ li, li < s.vector_batch.length →
        (lookupA (insAt s li) name).isSome ∧ (lookupA (outsAt s li) name).isSome) →
      ((lookupA s.tracker_line tid).isSome ∨ ∀ li, lookupA (sideAt s li) tid = none) →
      (loopLines tid cid li0 triggers s).2 = none ∧
      (∀ k trig2, triggers.get? k = some trig2 →
        FlipChar s (loopLines tid cid li0 triggers s).1 tid name (li0 + k) trig2) ∧
      ((lookupA (loopLines tid cid li0 triggers s).1.tracker_line tid).isSome ∨
        ∀ li, lookupA (sideAt (loopLines tid cid li0 triggers s).1 li) tid = none) := by
  intro triggers
  induction triggers with
  | nil =>
    intro li0 s _ _ _ _ _ _ hlog0
    refine ⟨rfl, ?_, hlog0⟩
    intro k trig2 hk
    simp [List.get?] at hk
  | cons t rest ih =>
    intro li0 s hlen1 hlen2 hlen3 hcov hname hnames hlog0
    have hli0 : li0 < s.vector_batch.length := by simp at hcov; omega
    have hli0side : li0 < s.tracker_state_batch.length := by omega
    have hli0ins : li0 < s.in_count_dict_batch.length := by omega
    have hli0outs : li0 < s.out_count_dict_batch.length := by omega
    -- helpers shared by the branches
    have harith0 : li0 + 0 = li0 := by omega
    cases hside : lookupA (sideAt s li0) tid with
    | none =>
      -- first sighting on line li0
      rw [loopLines, stepLine_fresh s tid cid li0 t hside]
      dsimp only
      set s1 : LineCounter :=
        { sideWrite s tid li0 t with tracker_line := setA s.tracker_line tid [cid] } with hs1
      have hside1self : sideAt s1 li0 = setA (sideAt s li0) tid t := by
        rw [hs1]
        show nthD (s.tracker_state_batch.set li0 (setA (sideAt s li0) tid t)) li0 [] = _
        exact nthD_set_eq s.tracker_state_batch li0 _ [] hli0side
      have hside1ne : ∀ j, j ≠ li0 → sideAt s1 j = sideAt s j := by
        intro j hj
        rw [hs1]
        show nthD (s.tracker_state_batch.set li0 (setA (sideAt s li0) tid t)) j [] = _
        exact nthD_set_ne s.tracker_state_batch li0 j _ [] (fun e => hj e.symm)
      have hins1 : ∀ j, insAt s1 j = insAt s j := fun j => rfl
      have houts1 : ∀ j, outsAt s1 j = outsAt s j := fun j => rfl
      have hvec1 : s1.vector_batch = s.vector_batch := by rw [hs1]; rfl
      have hcnd1 : s1.class_name_dict = s.class_name_dict := by rw [hs1]; rfl
      have hlen1a : s1.in_count_dict_batch.length = s1.vector_batch.length := by
        rw [hs1]
        show s.in_count_dict_batch.length = s.vector_batch.length
        exact hlen1
      have hlen2a : s1.out_count_dict_batch.length = s1.vector_batch.length := by
        rw [hs1]
        show s.out_count_dict_batch.length = s.vector_batch.length
        exact hlen2
      have hlen3a : s1.tracker_state_batch.length = s1.vector_batch.length := by
        rw [hs1]
        show (s.tracker_state_batch.set li0 _).length = s.vector_batch.length
        simp [hlen3]
      have hcov1 : (li0 + 1) + rest.length ≤ s1.vector_batch.length := by
        rw [hvec1]
        simp at hcov
        omega
      have hname1 : lookupA s1.class_name_dict cid = some name := by rw [hcnd1]; exact hname
      have hnames1 : ∀ li, li < s1.vector_batch.length →
          (lookupA (insAt s1 li) name).isSome ∧ (lookupA (outsAt s1 li) name).isSome := by
        intro li hli
        rw [hins1, houts1]
        exact hnames li (by rwa [hvec1] at hli)
      have hlog1 : (lookupA s1.tracker_line tid).isSome ∨
          ∀ li, lookupA (sideAt s1 li) tid = none := by
        left
        rw [hs1]
        show (lookupA (setA s.tracker_line tid [cid]) tid).isSome
        rw [lookupA_setA_self]
        rfl
      obtain ⟨e1, char1, log1⟩ := ih (li0 + 1) s1 hlen1a hlen2a hlen3a hcov1 hname1 hnames1 hlog1
      refine ⟨e1, ?_, log1⟩
      intro k trig2 hk
      cases k with
      | zero =>
        have ht : t = trig2 := by simpa using hk
        subst ht
        rw [harith0]
        have hframe := loopLines_frame tid cid rest (li0 + 1) s1 li0 (Or.inl (by omega))
        refine ⟨?_, ?_, ?_⟩
        · rw [hframe.1, hside1self]
        · intro _
          rw [hframe.2.1, hframe.2.2, hins1, houts1]
          exact ⟨rfl, rfl⟩
        · intro prev hprev
          rw [hside] at hprev
          cases hprev
      | succ k2 =>
        have harith : li0 + (k2 + 1) = (li0 + 1) + k2 := by omega
        rw [harith]
        have hch := char1 k2 trig2 (by simpa using hk)
        have hne : (li0 + 1) + k2 ≠ li0 := by omega
        exact FlipChar_congr (hside1ne _ hne) (hins1 _) (houts1 _) hch
    | some prev =>
      by_cases heq : prev = t
      · -- same side: no state change on this line
        subst heq
        rw [loopLines, stepLine_same s tid cid li0 prev hside]
        dsimp only
        obtain ⟨e1, char1, log1⟩ :=
          ih (li0 + 1) s hlen1 hlen2 hlen3 (by simp at hcov; omega) hname hnames hlog0
        refine ⟨e1, ?_, log1⟩
        intro k trig2 hk
        cases k with
        | zero =>
          have ht : prev = trig2 := by simpa using hk
          subst ht
          rw [harith0]
          have hframe := loopLines_frame tid cid rest (li0 + 1) s li0 (Or.inl (by omega))
          refine ⟨?_, ?_, ?_⟩
          · rw [hframe.1, setA_eq_of_lookup (sideAt s li0) tid prev hside]
          · intro habs
            rw [hside] at habs
            cases habs
          · intro prev2 hprev2
            rw [hside] at hprev2
            have hpp : prev = prev2 := by injection hprev2
            subst hpp
            constructor
            · intro _
              rw [hframe.2.1, hframe.2.2]
              exact ⟨rfl, rfl⟩
            · intro habs
              exact absurd rfl habs
        | succ k2 =>
          have harith : li0 + (k2 + 1) = (li0 + 1) + k2 := by omega
          rw [harith]
          exact char1 k2 trig2 (by simpa using hk)
      · -- flip on line li0
        have hlogSome : (lookupA s.tracker_line tid).isSome := by
          rcases hlog0 with h | h
          · exact h
          · rw [h li0] at hside; cases hside
        obtain ⟨log, hlog⟩ := Option.isSome_iff_exists.mp hlogSome
        have hnames0 := hnames li0 hli0
        cases t with
        | true =>
          obtain ⟨cIn, hcIn⟩ := Option.isSome_iff_exists.mp hnames0.1
          rw [loopLines, stepLine_flip_in s tid cid li0 prev log name cIn hside heq hlog hname hcIn]
          dsimp only
          set s1 : LineCounter :=
            insBump (logAppend (sideWrite s tid li0 true) tid li0 log) li0 name cIn with hs1
          have hside1self : sideAt s1 li0 = setA (sideAt s li0) tid true := by
            rw [hs1]
            show nthD (s.tracker_state_batch.set li0 (setA (sideAt s li0) tid true)) li0 [] = _
            exact nthD_set_eq s.tracker_state_batch li0 _ [] hli0side
          have hside1ne : ∀ j, j ≠ li0 → sideAt s1 j = sideAt s j := by
            intro j hj
            rw [hs1]
            show nthD (s.tracker_state_batch.set li0 (setA (sideAt s li0) tid true)) j [] = _
            exact nthD_set_ne s.tracker_state_batch li0 j _ [] (fun e => hj e.symm)
          have hins1self : insAt s1 li0 = setA (insAt s li0) name (cIn + 1) := by
            rw [hs1]
            show nthD (s.in_count_dict_batch.set li0 (setA (insAt s li0) name (cIn + 1))) li0 [] = _
            exact nthD_set_eq s.in_count_dict_batch li0 _ [] hli0ins
          have hins1ne : ∀ j, j ≠ li0 → insAt s1 j = insAt s j := by
            intro j hj
            rw [hs1]
            show nthD (s.in_count_dict_batch.set li0 (setA (insAt s li0) name (cIn + 1))) j [] = _
            exact nthD_set_ne s.in_count_dict_batch li0 j _ [] (fun e => hj e.symm)
          have houts1 : ∀ j, outsAt s1 j = outsAt s j := fun j => rfl
          have hvec1 : s1.vector_batch = s.vector_batch := by rw [hs1]; rfl
          have hcnd1 : s1.class_name_dict = s.class_name_dict := by rw [hs1]; rfl
          have hlen1a : s1.in_count_dict_batch.length = s1.vector_batch.length := by
            rw [hs1]
            show (s.in_count_dict_batch.set li0 _).length = s.vector_batch.length
            simp [hlen1]
          have hlen2a : s1.out_count_dict_batch.length = s1.vector_batch.length := by
            rw [hs1]
            show s.out_count_dict_batch.length = s.vector_batch.length
            exact hlen2
          have hlen3a : s1.tracker_state_batch.length = s1.vector_batch.length := by
            rw [hs1]
            show (s.tracker_state_batch.set li0 _).length = s.vector_batch.length
            simp [hlen3]
          have hcov1 : (li0 + 1) + rest.length ≤ s1.vector_batch.length := by
            rw [hvec1]
            simp at hcov
            omega
          have hname1 : lookupA s1.class_name_dict cid = some name := by
            rw [hcnd1]; exact hname
          have hnames1 : ∀ li, li < s1.vector_batch.length →
              (lookupA (insAt s1 li) name).isSome ∧ (lookupA (outsAt s1 li) name).isSome := by
            intro li hli
            rw [hvec1] at hli
            by_cases hj : li = li0
            · subst hj
              rw [hins1self, houts1]
              refine ⟨?_, (hnames li hli).2⟩
              rw [lookupA_setA_self]
              rfl
            · rw [hins1ne li hj, houts1]
              exact hnames li hli
          have hlog1 : (lookupA s1.tracker_line tid).isSome ∨
              ∀ li, lookupA (sideAt s1 li) tid = none := by
            left
            rw [hs1]
            show (lookupA (setA s.tracker_line tid (log ++ [li0])) tid).isSome
            rw [lookupA_setA_self]
            rfl
          obtain ⟨e1, char1, log1⟩ :=
            ih (li0 + 1) s1 hlen1a hlen2a hlen3a hcov1 hname1 hnames1 hlog1
          refine ⟨e1, ?_, log1⟩
          intro k trig2 hk
          cases k with
          | zero =>
            have ht : true = trig2 := by simpa using hk
            subst ht
            rw [harith0]
            have hframe := loopLines_frame tid cid rest (li0 + 1) s1 li0 (Or.inl (by omega))
            refine ⟨?_, ?_, ?_⟩
            · rw [hframe.1, hside1self]
            · intro habs
              rw [hside] at habs
              cases habs
            · intro prev2 hprev2
              rw [hside] at hprev2
              have hpp : prev = prev2 := by injection hprev2
              subst hpp
              constructor
              · intro habs
                exact absurd habs heq
              · intro _
                constructor
                · intro _
                  refine ⟨⟨cIn, hcIn, ?_, ?_⟩, ?_⟩
                  · rw [hframe.2.1, hins1self]
                    rw [lookupA_setA_self]
                  · rw [hframe.2.1, hins1self]
                  · rw [hframe.2.2, houts1]
                · intro habs
                  cases habs
            | succ k2 =>
              have harith : li0 + (k2 + 1) = (li0 + 1) + k2 := by omega
              rw [harith]
              have hch := char1 k2 trig2 (by simpa using hk)
              have hne : (li0 + 1) + k2 ≠ li0 := by omega
              exact FlipChar_congr (hside1ne _ hne) (hins1ne _ hne) (houts1 _) hch
        | false =>
          obtain ⟨cOut, hcOut⟩ := Option.isSome_iff_exists.mp hnames0.2
          rw [loopLines,
            stepLine_flip_out s tid cid li0 prev log name cOut hside heq hlog hname hcOut]
          dsimp only
          set s1 : LineCounter :=
            outsBump (logAppend (sideWrite s tid li0 false) tid li0 log) li0 name cOut with hs1
          have hside1self : sideAt s1 li0 = setA (sideAt s li0) tid false := by
            rw [hs1]
            show nthD (s.tracker_state_batch.set li0 (setA (sideAt s li0) tid false)) li0 [] = _
            exact nthD_set_eq s.tracker_state_batch li0 _ [] hli0side
          have hside1ne : ∀ j, j ≠ li0 → sideAt s1 j = sideAt s j := by
            intro j hj
            rw [hs1]
            show nthD (s.tracker_state_batch.set li0 (setA (sideAt s li0) tid false)) j [] = _
            exact nthD_set_ne s.tracker_state_batch li0 j _ [] (fun e => hj e.symm)
          have houts1self : outsAt s1 li0 = setA (outsAt s li0) name (cOut + 1) := by
            rw [hs1]
            show nthD (s.out_count_dict_batch.set li0 (setA (outsAt s li0) name (cOut + 1))) li0 []
              = _
            exact nthD_set_eq s.out_count_dict_batch li0 _ [] hli0outs
          have houts1ne : ∀ j, j ≠ li0 → outsAt s1 j = outsAt s j := by
            intro j hj
            rw [hs1]
            show nthD (s.out_count_dict_batch.set li0 (setA (outsAt s li0) name (cOut + 1))) j []
              = _
            exact nthD_set_ne s.out_count_dict_batch li0 j _ [] (fun e => hj e.symm)
          have hins1 : ∀ j, insAt s1 j = insAt s j := fun j => rfl
          have hvec1 : s1.vector_batch = s.vector_batch := by rw [hs1]; rfl
          have hcnd1 : s1.class_name_dict = s.class_name_dict := by rw [hs1]; rfl
          have hlen1a : s1.in_count_dict_batch.length = s1.vector_batch.length := by
            rw [hs1]
            show s.in_count_dict_batch.length = s.vector_batch.length
            exact hlen1
          have hlen2a : s1.out_count_dict_batch.length = s1.vector_batch.length := by
            rw [hs1]
            show (s.out_count_dict_batch.set li0 _).length = s.vector_batch.length
            simp [hlen2]
          have hlen3a : s1.tracker_state_batch.length = s1.vector_batch.length := by
            rw [hs1]
            show (s.tracker_state_batch.set li0 _).length = s.vector_batch.length
            simp [hlen3]
          have hcov1 : (li0 + 1) + rest.length ≤ s1.vector_batch.length := by
            rw [hvec1]
            simp at hcov
            omega
          have hname1 : lookupA s1.class_name_dict cid = some name := by
            rw [hcnd1]; exact hname
          have hnames1 : ∀ li, li < s1.vector_batch.length →
              (lookupA (insAt s1 li) name).isSome ∧ (lookupA (outsAt s1 li) name).isSome := by
            intro li hli
            rw [hvec1] at hli
            by_cases hj : li = li0
            · subst hj
              rw [houts1self, hins1]
              refine ⟨(hnames li hli).1, ?_⟩
              rw [lookupA_setA_self]
              rfl
            · rw [houts1ne li hj, hins1]
              exact hnames li hli
          have hlog1 : (lookupA s1.tracker_line tid).isSome ∨
              ∀ li, lookupA (sideAt s1 li) tid = none := by
            left
            rw [hs1]
            show (lookupA (setA s.tracker_line tid (log ++ [li0])) tid).isSome
            rw [lookupA_setA_self]
            rfl
          obtain ⟨e1, char1, log1⟩ :=
            ih (li0 + 1) s1 hlen1a hlen2a hlen3a hcov1 hname1 hnames1 hlog1
          refine ⟨e1, ?_, log1⟩
          intro k trig2 hk
          cases k with
          | zero =>
            have ht : false = trig2 := by simpa using hk
            subst ht
            rw [harith0]
            have hframe := loopLines_frame tid cid rest (li0 + 1) s1 li0 (Or.inl (by omega))
            refine ⟨?_, ?_, ?_⟩
            · rw [hframe.1, hside1self]
            · intro habs
              rw [hside] at habs
              cases habs
            · intro prev2 hprev2
              rw [hside] at hprev2
              have hpp : prev = prev2 := by injection hprev2
              subst hpp
              constructor
              · intro habs
                exact absurd habs heq
              · intro _
                constructor
                · intro habs
                  cases habs
                · intro _
                  refine ⟨⟨cOut, hcOut, ?_, ?_⟩, ?_⟩
                  · rw [hframe.2.2, houts1self]
                    rw [lookupA_setA_self]
                  · rw [hframe.2.2, houts1self]
                  · rw [hframe.2.1, hins1]
          | succ k2 =>
            have harith : li0 + (k2 + 1) = (li0 + 1) + k2 := by omega
            rw [harith]
            have hch := char1 k2 trig2 (by simpa using hk)
            have hne : (li0 + 1) + k2 ≠ li0 := by omega
            exact FlipChar_congr (hside1ne _ hne) (hins1 _) (houts1ne _ hne) hch

/-- One `update` call with a single observation is the per-observation body. -/
theorem update_single (s : LineCounter) (d : Detection) :
    s.update [d] = processDet s d := by
  rw [LineCounter.update]
  cases hp : processDet s d with
  | mk s1 e =>
    cases e with
    | none => rfl
    | some err => rfl

/-- Per-observation characterization: under resolvable class and intact
crossing-log invariant, no exception escapes and every configured line's state
changes exactly as `FlipChar` describes. -/
theorem processDet_char (s : LineCounter) (d : Detection) (tid : Nat) (name : String)
    (hlen1 : s.in_count_dict_batch.length = s.vector_batch.length)
    (hlen2 : s.out_count_dict_batch.length = s.vector_batch.length)
    (hlen3 : s.tracker_state_batch.length = s.vector_batch.length)
    (htid : d.tracker_id = some tid)
    (hname : lookupA s.class_name_dict d.class_id = some name)
    (hnames : ∀ li, li < s.vector_batch.length →
      (lookupA (insAt s li) name).isSome ∧ (lookupA (outsAt s li) name).isSome)
    (hlog0 : (lookupA s.tracker_line tid).isSome ∨
      ∀ li, lookupA (sideAt s li) tid = none) :
    (processDet s d).2 = none ∧
    (∀ li, li < s.vector_batch.length →
      FlipChar s (processDet s d).1 tid name li (sideTestAt s li (meanAnchor d))) ∧
    ((lookupA (processDet s d).1.tracker_line tid).isSome ∨
      ∀ li, lookupA (sideAt (processDet s d).1 li) tid = none) := by
  have hpd : processDet s d =
      loopLines tid d.class_id 0 (s.vector_batch.map (fun v => v.is_in (meanAnchor d))) s := by
    unfold processDet
    rw [htid]
  have hcov : 0 + (s.vector_batch.map (fun v => v.is_in (meanAnchor d))).length ≤
      s.vector_batch.length := by simp
  obtain ⟨e1, char1, log1⟩ := loopGood tid d.class_id name
    (s.vector_batch.map (fun v => v.is_in (meanAnchor d))) 0 s
    hlen1 hlen2 hlen3 hcov hname hnames hlog0
  rw [hpd]
  refine ⟨e1, ?_, log1⟩
  intro li hli
  obtain ⟨v, hv⟩ := get?_lt s.vector_batch li hli
  have hget : (s.vector_batch.map (fun v => v.is_in (meanAnchor d))).get? li =
      some (v.is_in (meanAnchor d)) := by
    rw [List.get?_map, hv]
    rfl
  have hst : sideTestAt s li (meanAnchor d) = v.is_in (meanAnchor d) := by
    unfold sideTestAt
    rw [hv]
  have := char1 li (v.is_in (meanAnchor d)) hget
  rw [hst]
  simpa using this

/-- Per-observation behavior for a globally fresh identity: no exception, all
count dictionaries untouched, side recorded on every configured line. -/
theorem processDet_fresh (s : LineCounter) (d : Detection) (tid : Nat)
    (hlen3 : s.tracker_state_batch.length = s.vector_batch.length)
    (htid : d.tracker_id = some tid)
    (hfresh : ∀ li, lookupA (sideAt s li) tid = none) :
    (processDet s d).2 = none ∧
    (processDet s d).1.in_count_dict_batch = s.in_count_dict_batch ∧
    (processDet s d).1.out_count_dict_batch = s.out_count_dict_batch ∧
    (∀ li, li < s.vector_batch.length →
      lookupA (sideAt (processDet s d).1 li) tid =
        some (sideTestAt s li (meanAnchor d))) := by
  have hpd : processDet s d =
      loopLines tid d.class_id 0 (s.vector_batch.map (fun v => v.is_in (meanAnchor d))) s := by
    unfold processDet
    rw [htid]
  have hcov : 0 + (s.vector_batch.map (fun v => v.is_in (meanAnchor d))).length ≤
      s.tracker_state_batch.length := by simp [hlen3]
  obtain ⟨e1, i1, o1, r1⟩ := loopFresh tid d.class_id
    (s.vector_batch.map (fun v => v.is_in (meanAnchor d))) 0 s hcov
    (fun k trig2 _ => hfresh (0 + k))
  rw [hpd]
  refine ⟨e1, i1, o1, ?_⟩
  intro li hli
  obtain ⟨v, hv⟩ := get?_lt s.vector_batch li hli
  have hget : (s.vector_batch.map (fun v => v.is_in (meanAnchor d))).get? li =
      some (v.is_in (meanAnchor d)) := by
    rw [List.get?_map, hv]
    rfl
  have hst : sideTestAt s li (meanAnchor d) = v.is_in (meanAnchor d) := by
    unfold sideTestAt
    rw [hv]
  have := r1 li (v.is_in (meanAnchor d)) hget
  rw [hst]
  simpa using this

/-- Per-observation accounting: from a well-formed state, an observation whose
class id is registered raises nothing, preserves well-formedness, and changes
each line's total count by exactly one per detected flip. -/
theorem processDet_good (s : LineCounter) (d : Detection)
    (HG : Good s)
    (Hcid : d.tracker_id.isSome → d.class_id ∈ s.class_id) :
    (processDet s d).2 = none ∧
    Good (processDet s d).1 ∧
    (processDet s d).1.vector_batch = s.vector_batch ∧
    (processDet s d).1.class_id = s.class_id ∧
    (processDet s d).1.class_name_dict = s.class_name_dict ∧
    (∀ li, lineTotal (processDet s d).1 li =
      lineTotal s li + (if detFlip s li d then 1 else 0)) := by
  obtain ⟨hlen1, hlen2, hlen3, hinv4, hinv5⟩ := HG
  have htp := processDet_tp s d
  obtain ⟨tpv, tpc, tpd, tpi, tpo, tps, tplog, tpins, tpouts, tple⟩ := htp
  cases htid : d.tracker_id with
  | none =>
    have hpd : processDet s d = (s, none) := by
      unfold processDet
      rw [htid]
    rw [hpd]
    refine ⟨rfl, ⟨hlen1, hlen2, hlen3, hinv4, hinv5⟩, rfl, rfl, rfl, ?_⟩
    intro li
    have : detFlip s li d = false := by
      unfold detFlip
      rw [htid]
    rw [this]
    simp
  | some tid =>
    obtain ⟨name, hname, hnames⟩ := hinv5 d.class_id (Hcid (by rw [htid]; rfl))
    have hnames2 : ∀ li, li < s.vector_batch.length →
        (lookupA (insAt s li) name).isSome ∧ (lookupA (outsAt s li) name).isSome := hnames
    have hlog0 : (lookupA s.tracker_line tid).isSome ∨
        ∀ li, lookupA (sideAt s li) tid = none := by
      by_cases h : (lookupA s.tracker_line tid).isSome
      · exact Or.inl h
      · right
        intro li
        by_cases h2 : (lookupA (sideAt s li) tid).isSome
        · exact absurd (hinv4 li tid h2) h
        · exact Option.not_isSome_iff_eq_none.mp h2
    obtain ⟨e1, char1, log1⟩ :=
      processDet_char s d tid name hlen1 hlen2 hlen3 htid hname hnames2 hlog0
    set r := (processDet s d).1 with hr
    have hgood : Good r := by
      refine ⟨tpi.trans (hlen1.trans (congrArg List.length tpv.symm)),
        tpo.trans (hlen2.trans (congrArg List.length tpv.symm)),
        tps.trans (hlen3.trans (congrArg List.length tpv.symm)), ?_, ?_⟩
      · intro li t2 hsome
        by_cases ht2 : t2 = tid
        · subst ht2
          rcases log1 with h | h
          · exact h
          · rw [h li] at hsome
            cases hsome
        · have hso : lookupA (sideAt r li) t2 = lookupA (sideAt s li) t2 := by
            have := loopLines_side_other tid d.class_id
              (s.vector_batch.map (fun v => v.is_in (meanAnchor d))) 0 s li t2 ht2
            have hpd : processDet s d =
                loopLines tid d.class_id 0
                  (s.vector_batch.map (fun v => v.is_in (meanAnchor d))) s := by
              unfold processDet
              rw [htid]
            rw [hr, hpd]
            exact this
          rw [hso] at hsome
          exact tplog t2 (hinv4 li t2 hsome)
      · intro cid2 hcid2
        rw [tpc] at hcid2
        obtain ⟨name2, hname2, hents⟩ := hinv5 cid2 hcid2
        refine ⟨name2, by rw [tpd]; exact hname2, ?_⟩
        intro li hli
        rw [tpv] at hli
        exact ⟨tpins li name2 (hents li hli).1, tpouts li name2 (hents li hli).2⟩
    refine ⟨e1, hgood, tpv, tpc, tpd, ?_⟩
    intro li
    by_cases hli : li < s.vector_batch.length
    · have hch := char1 li hli
      obtain ⟨v, hv⟩ := get?_lt s.vector_batch li hli
      have hv2 : s.vector_batch[li]? = some v := by
        rw [← List.get?_eq_getElem?]
        exact hv
      have hst : sideTestAt s li (meanAnchor d) = v.is_in (meanAnchor d) := by
        unfold sideTestAt
        rw [hv]
      cases hside : lookupA (sideAt s li) tid with
      | none =>
        have hflip : detFlip s li d = false := by
          simp [detFlip, htid, hv2, hside]
        obtain ⟨hin, hout⟩ := hch.2.1 hside
        rw [hflip]
        simp [lineTotal, hin, hout]
      | some prev =>
        by_cases hpt : prev = sideTestAt s li (meanAnchor d)
        · have hpt2 : prev = v.is_in (meanAnchor d) := by rw [hst] at hpt; exact hpt
          have hflip2 : detFlip s li d = false := by
            simp [detFlip, htid, hv2, hside, hpt2]
          obtain ⟨hin, hout⟩ := ((hch.2.2 prev hside).1) hpt
          rw [hflip2]
          simp [lineTotal, hin, hout]
        · have hpt2 : ¬ prev = v.is_in (meanAnchor d) := by rw [hst] at hpt; exact hpt
          have hflip2 : detFlip s li d = true := by
            simp [detFlip, htid, hv2, hside, bne_iff_ne]
            exact hpt2
          have hcases := (hch.2.2 prev hside).2 hpt
          have hone : (if detFlip s li d then (1 : Int) else 0) = 1 := by
            rw [hflip2]
            exact if_pos rfl
          rw [hone]
          cases htr : sideTestAt s li (meanAnchor d) with
          | true =>
            obtain ⟨⟨c, hc, _, hset⟩, houts⟩ := hcases.1 htr
            have hsum := sumCounts_setA (insAt s li) name c hc
            simp only [lineTotal]
            rw [hset, houts, hsum]
            ring
          | false =>
            obtain ⟨⟨c, hc, _, hset⟩, hins⟩ := hcases.2 htr
            have hsum := sumCounts_setA (outsAt s li) name c hc
            simp only [lineTotal]
            rw [hset, hins, hsum]
            ring
    · have hnone : s.vector_batch[li]? = none := by
        rw [← List.get?_eq_getElem?]
        exact List.get?_eq_none.mpr (by omega)
      have hflip : detFlip s li d = false := by
        simp [detFlip, htid, hnone]
      have hframe := loopLines_frame tid d.class_id
        (s.vector_batch.map (fun v => v.is_in (meanAnchor d))) 0 s li
        (Or.inr (by simp; omega))
      have hpd : processDet s d =
          loopLines tid d.class_id 0
            (s.vector_batch.map (fun v => v.is_in (meanAnchor d))) s := by
        unfold processDet
        rw [htid]
      rw [hflip]
      simp only [lineTotal, hr, hpd, hframe.2.1, hframe.2.2]
      simp

/-- Whole-call accounting: from a well-formed state, an `update` call whose
observations all carry registered class ids raises nothing, preserves
well-formedness, and adds to each line's total exactly the number of flips it
detected. -/
theorem update_good (ds : List Detection) : ∀ (s : LineCounter),
    Good s →
    (∀ d ∈ ds, d.tracker_id.isSome → d.class_id ∈ s.class_id) →
    (s.update ds).2 = none ∧ Good (s.update ds).1 ∧
    (s.update ds).1.class_id = s.class_id ∧
    (∀ li, lineTotal (s.update ds).1 li = lineTotal s li + (flipsUpdate li s ds : Int)) := by
  induction ds with
  | nil =>
    intro s HG _
    refine ⟨rfl, HG, rfl, ?_⟩
    intro li
    simp [flipsUpdate, LineCounter.update]
  | cons d rest ih =>
    intro s HG Hcls
    obtain ⟨e1, good1, hv, hc, hd, hsum⟩ :=
      processDet_good s d HG (Hcls d (by simp))
    rw [LineCounter.update]
    cases hp : processDet s d with
    | mk s1 e2 =>
      have he2 : e2 = none := by rw [hp] at e1; exact e1
      subst he2
      have hs1 : s1 = (processDet s d).1 := by rw [hp]
      have good1a : Good s1 := by rw [hs1]; exact good1
      have hca : s1.class_id = s.class_id := by rw [hs1]; exact hc
      have Hcls1 : ∀ d2 ∈ rest, d2.tracker_id.isSome → d2.class_id ∈ s1.class_id := by
        intro d2 hd2 hsome
        rw [hca]
        exact Hcls d2 (by simp [hd2]) hsome
      obtain ⟨e3, good3, hc3, hsum3⟩ := ih s1 good1a Hcls1
      refine ⟨e3, good3, hc3.trans hca, ?_⟩
      intro li
      have : flipsUpdate li s (d :: rest) =
          (if detFlip s li d then 1 else 0) + flipsUpdate li s1 rest := by
        rw [flipsUpdate, ← hs1]
      rw [this, hsum3 li]
      have hs2 : lineTotal s1 li = lineTotal s li + (if detFlip s li d then (1 : Int) else 0) := by
        rw [hs1]
        exact hsum li
      rw [hs2]
      push_cast
      by_cases hflip : detFlip s li d
      · simp [hflip]
        ring
      · simp [hflip]

/-- Accounting over a whole sequence of `update` calls. -/
theorem runUpdates_good (dss : List (List Detection)) : ∀ (s : LineCounter),
    Good s →
    (∀ ds ∈ dss, ∀ d ∈ ds, d.tracker_id.isSome → d.class_id ∈ s.class_id) →
    Good (runUpdates s dss) ∧
    (∀ li, lineTotal (runUpdates s dss) li = lineTotal s li + (flipsRun li s dss : Int)) := by
  induction dss with
  | nil =>
    intro s HG _
    refine ⟨HG, ?_⟩
    intro li
    simp [runUpdates, flipsRun]
  | cons ds rest ih =>
    intro s HG Hcls
    obtain ⟨e1, good1, hc1, hsum1⟩ := update_good ds s HG (Hcls ds (by simp))
    have Hcls1 : ∀ ds2 ∈ rest, ∀ d ∈ ds2, d.tracker_id.isSome →
        d.class_id ∈ (s.update ds).1.class_id := by
      intro ds2 hds2 d hd hsome
      rw [hc1]
      exact Hcls ds2 (by simp [hds2]) d hd hsome
    obtain ⟨good2, hsum2⟩ := ih (s.update ds).1 good1 Hcls1
    refine ⟨good2, ?_⟩
    intro li
    show lineTotal (runUpdates (s.update ds).1 rest) li = _
    rw [hsum2 li, hsum1 li, flipsRun]
    push_cast
    ring

theorem buildVectors_ok_length : ∀ (start end_ : List Point) (vecs : List Vector),
    buildVectors start end_ = .ok vecs → vecs.length = start.length := by
  intro start
  induction start with
  | nil =>
    intro end_ vecs h
    rw [buildVectors] at h
    injection h with h2
    rw [← h2]
    rfl
  | cons p rest ih =>
    intro end_ vecs h
    cases end_ with
    | nil =>
      rw [buildVectors] at h
      cases h
    | cons q qrest =>
      rw [buildVectors] at h
      cases hb : buildVectors rest qrest with
      | error e => rw [hb] at h; cases h
      | ok vs =>
        rw [hb] at h
        injection h with h2
        rw [← h2]
        simp [ih qrest vs hb]

theorem buildVectors_err : ∀ (start end_ : List Point), end_.length < start.length →
    buildVectors start end_ = .error .indexError := by
  intro start
  induction start with
  | nil =>
    intro end_ h
    simp at h
  | cons p rest ih =>
    intro end_ h
    cases end_ with
    | nil => rw [buildVectors]
    | cons q qrest =>
      rw [buildVectors]
      have h2 : qrest.length < rest.length := by simp at h; omega
      rw [ih qrest h2]
      rfl

theorem buildVectors_ok_le (start end_ : List Point) (vecs : List Vector)
    (h : buildVectors start end_ = .ok vecs) : start.length ≤ end_.length := by
  by_contra hlt
  rw [buildVectors_err start end_ (by omega)] at h
  cases h

theorem lookupA_mem {α β : Type} [DecidableEq α] : ∀ (L : List (α × β)) (k : α) (v : β),
    lookupA L k = some v → (k, v) ∈ L := by
  intro L
  induction L with
  | nil => intro k v h; cases h
  | cons p rest ih =>
    intro k v h
    obtain ⟨k0, v0⟩ := p
    by_cases h0 : k0 = k
    · subst h0
      simp [lookupA] at h
      simp [h]
    · simp [lookupA, h0] at h
      simp [ih k v h]

theorem setA_forall_snd {α β : Type} [DecidableEq α] (P : β → Prop) :
    ∀ (L : List (α × β)) (a : α) (b : β), (∀ p ∈ L, P p.2) → P b →
      ∀ p ∈ setA L a b, P p.2 := by
  intro L
  induction L with
  | nil =>
    intro a b _ hb p hp
    simp [setA] at hp
    rw [hp]
    exact hb
  | cons q rest ih =>
    intro a b hL hb p hp
    obtain ⟨k0, v0⟩ := q
    by_cases h0 : k0 = a
    · simp [setA, h0] at hp
      rcases hp with h | h
      · rw [h]; exact hb
      · exact hL p (by simp [h])
    · simp [setA, h0] at hp
      rcases hp with h | h
      · exact hL p (by simp [h])
      · exact ih a b (fun q hq => hL q (by simp [hq])) hb p h

theorem buildTemplate_zero (cnd : List (Nat × String)) :
    ∀ (l : List Nat) (acc t : List (String × Int)),
      (∀ p ∈ acc, p.2 = 0) → buildTemplate cnd l acc = .ok t → ∀ p ∈ t, p.2 = 0 := by
  intro l
  induction l with
  | nil =>
    intro acc t hacc h
    rw [buildTemplate] at h
    injection h with h2
    rw [← h2]
    exact hacc
  | cons cid rest ih =>
    intro acc t hacc h
    rw [buildTemplate] at h
    cases hc : lookupA cnd cid with
    | none => rw [hc] at h; cases h
    | some name =>
      rw [hc] at h
      exact ih (setA acc name 0) t
        (setA_forall_snd (fun v => v = 0) acc name 0 hacc rfl) h

theorem buildTemplate_keys (cnd : List (Nat × String)) :
    ∀ (l : List Nat) (acc t : List (String × Int)),
      buildTemplate cnd l acc = .ok t →
      ∀ k, (lookupA acc k).isSome → (lookupA t k).isSome := by
  intro l
  induction l with
  | nil =>
    intro acc t h k hk
    rw [buildTemplate] at h
    injection h with h2
    rw [← h2]
    exact hk
  | cons cid rest ih =>
    intro acc t h k hk
    rw [buildTemplate] at h
    cases hc : lookupA cnd cid with
    | none => rw [hc] at h; cases h
    | some name =>
      rw [hc] at h
      exact ih (setA acc name 0) t h k (isSome_lookupA_setA acc name k 0 hk)

theorem buildTemplate_covers (cnd : List (Nat × String)) :
    ∀ (l : List Nat) (acc t : List (String × Int)),
      buildTemplate cnd l acc = .ok t →
      ∀ cid ∈ l, ∃ name, lookupA cnd cid = some name ∧ (lookupA t name).isSome := by
  intro l
  induction l with
  | nil =>
    intro acc t _ cid hcid
    simp at hcid
  | cons cid0 rest ih =>
    intro acc t h cid hcid
    rw [buildTemplate] at h
    cases hc : lookupA cnd cid0 with
    | none => rw [hc] at h; cases h
    | some name0 =>
      rw [hc] at h
      rcases List.mem_cons.mp hcid with h2 | h2
      · subst h2
        refine ⟨name0, hc, ?_⟩
        refine buildTemplate_keys cnd rest (setA acc name0 0) t h name0 ?_
        rw [lookupA_setA_self]
        rfl
      · exact ih (setA acc name0 0) t h cid h2

theorem buildTemplate_ok_of (cnd : List (Nat × String)) :
    ∀ (l : List Nat), (∀ cid ∈ l, (lookupA cnd cid).isSome) →
      ∀ acc, ∃ t, buildTemplate cnd l acc = .ok t := by
  intro l
  induction l with
  | nil =>
    intro _ acc
    exact ⟨acc, rfl⟩
  | cons cid rest ih =>
    intro hall acc
    obtain ⟨name, hname⟩ := Option.isSome_iff_exists.mp (hall cid (by simp))
    obtain ⟨t, ht⟩ := ih (fun c hc => hall c (by simp [hc])) (setA acc name 0)
    refine ⟨t, ?_⟩
    rw [buildTemplate, hname]
    exact ht

theorem sumCounts_of_zero : ∀ (L : List (String × Int)), (∀ p ∈ L, p.2 = 0) →
    sumCounts L = 0 := by
  intro L
  induction L with
  | nil => intro _; rfl
  | cons p rest ih =>
    intro h
    rw [sumCounts_cons, h p (by simp), ih (fun q hq => h q (by simp [hq]))]
    ring

/-- Inversion of a successful construction. -/
theorem init_ok_elim (start end_ : List Point) (cids : List Nat)
    (cnd : List (Nat × String)) (s0 : LineCounter)
    (h : LineCounter.init start end_ cids cnd = .ok s0) :
    ∃ vecs tmpl, buildVectors start end_ = .ok vecs ∧
      buildTemplate cnd cids [] = .ok tmpl ∧
      s0 = { vector_batch := vecs
             tracker_line := []
             in_count_dict_batch := List.replicate start.length tmpl
             out_count_dict_batch := List.replicate start.length tmpl
             tracker_state_batch := List.replicate start.length []
             class_id := cids
             class_name_dict := cnd } := by
  unfold LineCounter.init at h
  cases hb : buildVectors start end_ with
  | error e => rw [hb] at h; cases h
  | ok vecs =>
    rw [hb] at h
    cases ht : buildTemplate cnd cids [] with
    | error e => rw [ht] at h; cases h
    | ok tmpl =>
      rw [ht] at h
      injection h with h2
      exact ⟨vecs, tmpl, rfl, rfl, h2.symm⟩

/-- Consequences of a successful construction: the state is well-formed, all
counts are zero, and every registered class has zero-initialized entries on
every line. -/
theorem init_good (start end_ : List Point) (cids : List Nat) (cnd : List (Nat × String))
    (s0 : LineCounter) (h : LineCounter.init start end_ cids cnd = .ok s0) :
    Good s0 ∧ s0.class_id = cids ∧ s0.class_name_dict = cnd ∧
    s0.tracker_line = [] ∧
    (∀ li, lineTotal s0 li = 0) ∧
    (∀ cid name, cid ∈ cids → lookupA cnd cid = some name →
      ∀ li, li < s0.vector_batch.length →
        lookupA (insAt s0 li) name = some 0 ∧ lookupA (outsAt s0 li) name = some 0) := by
  obtain ⟨vecs, tmpl, hbv, hbt, hs0⟩ := init_ok_elim start end_ cids cnd s0 h
  have hn : vecs.length = start.length := buildVectors_ok_length start end_ vecs hbv
  have hzero : ∀ p ∈ tmpl, p.2 = 0 :=
    buildTemplate_zero cnd cids [] tmpl (by intro p hp; simp at hp) hbt
  have hvec : s0.vector_batch = vecs := by rw [hs0]
  have hins : ∀ li, li < start.length → insAt s0 li = tmpl := by
    intro li hli
    rw [hs0]
    show nthD (List.replicate start.length tmpl) li [] = tmpl
    exact nthD_replicate start.length li tmpl [] hli
  have hins2 : ∀ li, start.length ≤ li → insAt s0 li = [] := by
    intro li hli
    rw [hs0]
    show nthD (List.replicate start.length tmpl) li [] = []
    exact nthD_ge _ li [] (by simp; omega)
  have houts : ∀ li, li < start.length → outsAt s0 li = tmpl := by
    intro li hli
    rw [hs0]
    show nthD (List.replicate start.length tmpl) li [] = tmpl
    exact nthD_replicate start.length li tmpl [] hli
  have houts2 : ∀ li, start.length ≤ li → outsAt s0 li = [] := by
    intro li hli
    rw [hs0]
    show nthD (List.replicate start.length tmpl) li [] = []
    exact nthD_ge _ li [] (by simp; omega)
  have hside : ∀ li, sideAt s0 li = [] := by
    intro li
    rw [hs0]
    show nthD (List.replicate start.length []) li [] = []
    by_cases hli : li < start.length
    · exact nthD_replicate start.length li [] [] hli
    · exact nthD_ge (List.replicate start.length []) li [] (by simp; omega)
  refine ⟨⟨?_, ?_, ?_, ?_, ?_⟩, by rw [hs0], by rw [hs0], by rw [hs0], ?_, ?_⟩
  · rw [hs0]; simp [hn]
  · rw [hs0]; simp [hn]
  · rw [hs0]; simp [hn]
  · intro li tid hsome
    rw [hside li] at hsome
    simp [lookupA] at hsome
  · intro cid hcid
    have hcid2 : cid ∈ cids := by
      rw [hs0] at hcid
      exact hcid
    obtain ⟨name, hname, hkey⟩ := buildTemplate_covers cnd cids [] tmpl hbt cid hcid2
    refine ⟨name, by rw [hs0]; exact hname, ?_⟩
    intro li hli
    have hli2 : li < start.length := by rw [hvec] at hli; omega
    rw [hins li hli2, houts li hli2]
    exact ⟨hkey, hkey⟩
  · intro li
    unfold lineTotal
    by_cases hli : li < start.length
    · rw [hins li hli, houts li hli, sumCounts_of_zero tmpl hzero]
      ring
    · rw [hins2 li (by omega), houts2 li (by omega)]
      rfl
  · intro cid name hcid hname li hli
    have hli2 : li < start.length := by rw [hvec] at hli; omega
    obtain ⟨name2, hname2, hkey⟩ := buildTemplate_covers cnd cids [] tmpl hbt cid hcid
    have hnn : name2 = name := by
      rw [hname] at hname2
      injection hname2 with he
      exact he.symm
    subst hnn
    obtain ⟨v, hv⟩ := Option.isSome_iff_exists.mp hkey
    have hv0 : v = 0 := hzero (name2, v) (lookupA_mem tmpl name2 v hv)
    subst hv0
    rw [hins li hli2, houts li hli2]
    exact ⟨hv, hv⟩

/-- C5: for every line and every identity not yet present in that line's side
map (here: fresh on every line, as any identity first sighted by the tracker
is), the `update` call that first sights the identity records the identity's
current side-test result in each line's side map and leaves every line's in
and out count dictionaries entirely unchanged, regardless of which side the
identity is on. -/
theorem C5_first_sighting (s : LineCounter) (d : Detection) (tid : Nat)
    (hlen3 : s.tracker_state_batch.length = s.vector_batch.length)
    (htid : d.tracker_id = some tid)
    (hfresh : ∀ li, lookupA (sideAt s li) tid = none) :
    (s.update [d]).2 = none ∧
    (s.update [d]).1.in_count_dict_batch = s.in_count_dict_batch ∧
    (s.update [d]).1.out_count_dict_batch = s.out_count_dict_batch ∧
    (∀ li, li < s.vector_batch.length →
      lookupA (sideAt (s.update [d]).1 li) tid =
        some (sideTestAt s li (meanAnchor d))) := by
  rw [update_single]
  exact processDet_fresh s d tid hlen3 htid hfresh

/-- Witness for C5 at the example tracker: the first sighting of identity 1
records side `true` on line 0 and leaves the count dictionaries untouched. -/
theorem C5_first_sighting_witness :
    (exS0.update [exDetA]).2 = none ∧
    (exS0.update [exDetA]).1.in_count_dict_batch = exS0.in_count_dict_batch ∧
    (exS0.update [exDetA]).1.out_count_dict_batch = exS0.out_count_dict_batch ∧
    (∀ li, li < exS0.vector_batch.length →
      lookupA (sideAt (exS0.update [exDetA]).1 li) 1 =
        some (sideTestAt exS0 li (meanAnchor exDetA))) := by
  refine C5_first_sighting exS0 exDetA 1 (by with_unfolding_all rfl) rfl ?_
  intro li
  match li with
  | 0 => with_unfolding_all rfl
  | Nat.succ n =>
    show lookupA (nthD exS0.tracker_state_batch (n + 1) []) 1 = none
    rw [nthD_ge exS0.tracker_state_batch (n + 1) [] (by
      show exS0.tracker_state_batch.length ≤ n + 1
      have : exS0.tracker_state_batch.length = 1 := by with_unfolding_all rfl
      omega)]
    rfl

/-- C6: processing an observation against line `i` never changes line `j`'s
side map or either of line `j`'s count dictionaries, for any `j ≠ i`; the
per-line structures behave as independent objects (construction installs a
separate copy of the counts template per line). -/
theorem C6_line_independence (s : LineCounter) (tid cid i : Nat) (trig : Bool) (j : Nat)
    (h : j ≠ i) :
    sideAt (stepLine s tid cid i trig).1 j = sideAt s j ∧
    insAt (stepLine s tid cid i trig).1 j = insAt s j ∧
    outsAt (stepLine s tid cid i trig).1 j = outsAt s j :=
  stepLine_frame s tid cid i trig j h

/-- Witness for C6 on the two-line example tracker: processing identity 1
against line 0 leaves line 1's side map and counts untouched. -/
theorem C6_line_independence_witness :
    sideAt (stepLine ex2S0 1 0 0 true).1 1 = sideAt ex2S0 1 ∧
    insAt (stepLine ex2S0 1 0 0 true).1 1 = insAt ex2S0 1 ∧
    outsAt (stepLine ex2S0 1 0 0 true).1 1 = outsAt ex2S0 1 :=
  C6_line_independence ex2S0 1 0 0 true 1 (by decide)

/-- C10: when the list of start points is strictly longer than the list of end
points, construction fails with the out-of-range IndexError raised while
pairing `start_points[i]` with `end_points[i]`, and no tracker is produced;
construction succeeds only when every start point has a matching end point. -/
theorem C10_mismatched_lines :
    (∀ (start end_ : List Point) (cids : List Nat) (cnd : List (Nat × String)),
      end_.length < start.length →
      LineCounter.init start end_ cids cnd = .error .indexError) ∧
    (∀ (start end_ : List Point) (cids : List Nat) (cnd : List (Nat × String))
      (s : LineCounter),
      LineCounter.init start end_ cids cnd = .ok s → start.length ≤ end_.length) := by
  constructor
  · intro start end_ cids cnd h
    unfold LineCounter.init
    rw [buildVectors_err start end_ h]
  · intro start end_ cids cnd s h
    obtain ⟨vecs, _, hbv, _, _⟩ := init_ok_elim start end_ cids cnd s h
    exact buildVectors_ok_le start end_ vecs hbv

/-- Witness for C10: two start points against one end point raise IndexError,
and the successfully constructed example tracker has as many end points as
start points. -/
theorem C10_mismatched_lines_witness :
    LineCounter.init ex2Start exEnd exCids exCnd = .error .indexError ∧
    exStart.length ≤ exEnd.length := by
  constructor
  · exact C10_mismatched_lines.1 ex2Start exEnd exCids exCnd (by decide)
  · exact C10_mismatched_lines.2 exStart exEnd exCids exCnd exS0 (by with_unfolding_all rfl)

/-- C4 counterexample: constructing with an empty line list does not fail; it
returns a tracker with no lines (the code defines no ConfigurationError and
performs no emptiness check). -/
theorem C4_counterexample :
    LineCounter.init [] [] exCids exCnd =
      .ok { vector_batch := [], tracker_line := [], in_count_dict_batch := [],
            out_count_dict_batch := [], tracker_state_batch := [],
            class_id := exCids, class_name_dict := exCnd } := by
  with_unfolding_all rfl

/-- C4 amended: for every construction call in which the list of lines is
empty (and the registered class ids all resolve, so that the independent
template loop does not raise), construction succeeds and returns a tracker
with no lines and empty per-line state; no ConfigurationError exists. -/
theorem C4_amended (cids : List Nat) (cnd : List (Nat × String))
    (h : ∀ cid ∈ cids, (lookupA cnd cid).isSome) :
    ∃ s, LineCounter.init [] [] cids cnd = .ok s ∧ s.vector_batch = [] ∧
      s.in_count_dict_batch = [] ∧ s.out_count_dict_batch = [] ∧
      s.tracker_state_batch = [] ∧ s.tracker_line = [] := by
  obtain ⟨t, ht⟩ := buildTemplate_ok_of cnd cids h []
  refine ⟨{ vector_batch := [], tracker_line := [],
            in_count_dict_batch := [], out_count_dict_batch := [],
            tracker_state_batch := [], class_id := cids, class_name_dict := cnd },
    ?_, rfl, rfl, rfl, rfl, rfl⟩
  unfold LineCounter.init
  rw [show buildVectors [] [] = .ok [] from rfl, ht]
  rfl

/-- Witness for C4 amended at the example registry. -/
theorem C4_amended_witness :
    ∃ s, LineCounter.init [] [] exCids exCnd = .ok s ∧ s.vector_batch = [] ∧
      s.in_count_dict_batch = [] ∧ s.out_count_dict_batch = [] ∧
      s.tracker_state_batch = [] ∧ s.tracker_line = [] :=
  C4_amended exCids exCnd (by decide)

/-- C1: for a tracker in lockstep shape, a line `li`, and an identity already
recorded in that line's side map (with its crossing-log entry present and its
class id resolving to a name registered on every line, as holds for every
reachable state), an `update` call carrying that identity's observation raises
nothing; if the observation's side-test result on `li` differs from the
recorded side it increments exactly one of line `li`'s (inCount, outCount)
entries for the object's class name by exactly 1 — inCount when the new side
is true, outCount otherwise — leaving the other dictionary unchanged, and if
the side-test result equals the recorded side both dictionaries of line `li`
are unchanged. -/
theorem C1_flip_single_count (s : LineCounter) (d : Detection) (tid li : Nat)
    (prev : Bool) (name : String)
    (hlen1 : s.in_count_dict_batch.length = s.vector_batch.length)
    (hlen2 : s.out_count_dict_batch.length = s.vector_batch.length)
    (hlen3 : s.tracker_state_batch.length = s.vector_batch.length)
    (htid : d.tracker_id = some tid)
    (hli : li < s.vector_batch.length)
    (hprev : lookupA (sideAt s li) tid = some prev)
    (hlog : (lookupA s.tracker_line tid).isSome)
    (hname : lookupA s.class_name_dict d.class_id = some name)
    (hnames : ∀ li2, li2 < s.vector_batch.length →
      (lookupA (insAt s li2) name).isSome ∧ (lookupA (outsAt s li2) name).isSome) :
    (s.update [d]).2 = none ∧
    (prev ≠ sideTestAt s li (meanAnchor d) →
      (sideTestAt s li (meanAnchor d) = true →
        (∃ c, lookupA (insAt s li) name = some c ∧
          lookupA (insAt (s.update [d]).1 li) name = some (c + 1)) ∧
        outsAt (s.update [d]).1 li = outsAt s li) ∧
      (sideTestAt s li (meanAnchor d) = false →
        (∃ c, lookupA (outsAt s li) name = some c ∧
          lookupA (outsAt (s.update [d]).1 li) name = some (c + 1)) ∧
        insAt (s.update [d]).1 li = insAt s li)) ∧
    (prev = sideTestAt s li (meanAnchor d) →
      insAt (s.update [d]).1 li = insAt s li ∧
      outsAt (s.update [d]).1 li = outsAt s li) := by
  rw [update_single]
  obtain ⟨e1, char1, _⟩ :=
    processDet_char s d tid name hlen1 hlen2 hlen3 htid hname hnames (Or.inl hlog)
  have hch := char1 li hli
  obtain ⟨_, _, hsome⟩ := hch
  have hcases := hsome prev hprev
  refine ⟨e1, ?_, ?_⟩
  · intro hne
    constructor
    · intro htr
      obtain ⟨⟨c, hc, hlk, _⟩, houts⟩ := (hcases.2 hne).1 htr
      exact ⟨⟨c, hc, hlk⟩, houts⟩
    · intro htr
      obtain ⟨⟨c, hc, hlk, _⟩, hins⟩ := (hcases.2 hne).2 htr
      exact ⟨⟨c, hc, hlk⟩, hins⟩
  · intro heq
    exact hcases.1 heq

/-- Witness for C1: identity 1 recorded on side true flips to the out side,
incrementing out["car"] from 0 to 1 and leaving line 0's in dictionary
unchanged. -/
theorem C1_flip_single_count_witness :
    (exS1.update [exDetB]).2 = none ∧
    (true ≠ sideTestAt exS1 0 (meanAnchor exDetB) →
      (sideTestAt exS1 0 (meanAnchor exDetB) = true →
        (∃ c, lookupA (insAt exS1 0) "car" = some c ∧
          lookupA (insAt (exS1.update [exDetB]).1 0) "car" = some (c + 1)) ∧
        outsAt (exS1.update [exDetB]).1 0 = outsAt exS1 0) ∧
      (sideTestAt exS1 0 (meanAnchor exDetB) = false →
        (∃ c, lookupA (outsAt exS1 0) "car" = some c ∧
          lookupA (outsAt (exS1.update [exDetB]).1 0) "car" = some (c + 1)) ∧
        insAt (exS1.update [exDetB]).1 0 = insAt exS1 0)) ∧
    (true = sideTestAt exS1 0 (meanAnchor exDetB) →
      insAt (exS1.update [exDetB]).1 0 = insAt exS1 0 ∧
      outsAt (exS1.update [exDetB]).1 0 = outsAt exS1 0) := by
  refine C1_flip_single_count exS1 exDetB 1 0 true "car"
    (by with_unfolding_all rfl) (by with_unfolding_all rfl) (by with_unfolding_all rfl)
    rfl (by with_unfolding_all decide) (by with_unfolding_all rfl)
    (by with_unfolding_all decide) (by with_unfolding_all rfl) ?_
  intro li2 hli2
  have h0 : li2 = 0 := by
    have : exS1.vector_batch.length = 1 := by with_unfolding_all rfl
    omega
  subst h0
  exact ⟨by with_unfolding_all decide, by with_unfolding_all decide⟩

/-- C2 counterexample: an observation whose class id 5 is absent from the
registry is processed without any error on its first sighting — its side is
silently recorded — contradicting that an error is surfaced immediately,
including on first sighting. -/
theorem C2_counterexample :
    (exS0.update [exDetBad]).2 = none ∧
    lookupA (sideAt (exS0.update [exDetBad]).1 0) 9 = some true := by
  constructor
  · with_unfolding_all rfl
  · with_unfolding_all rfl

/-- C2 amended: the KeyError for a class id absent from the registry is
surfaced only when the observation produces a side flip (at the moment the
count increment resolves the class name); a first sighting with an unknown
class id raises nothing and silently records the side. -/
theorem C2_amended :
    (∀ (s : LineCounter) (tid cid li : Nat) (trig prev : Bool) (log : List Nat),
      lookupA (sideAt s li) tid = some prev → prev ≠ trig →
      lookupA s.tracker_line tid = some log →
      lookupA s.class_name_dict cid = none →
      stepLine s tid cid li trig =
        (logAppend (sideWrite s tid li trig) tid li log, some (.keyErrorClass cid))) ∧
    (∀ (s : LineCounter) (tid cid li : Nat) (trig : Bool),
      lookupA (sideAt s li) tid = none → (stepLine s tid cid li trig).2 = none) := by
  constructor
  · intro s tid cid li trig prev log hprev hne hlog hcnd
    exact stepLine_flip_noClass s tid cid li trig prev log hprev hne hlog hcnd
  · intro s tid cid li trig h
    rw [stepLine_fresh s tid cid li trig h]

/-- Witness for C2 amended: identity 9's flip with unregistered class 5 raises
KeyError, while its first sighting raised nothing. -/
theorem C2_amended_witness :
    stepLine exS1bad 9 5 0 false =
      (logAppend (sideWrite exS1bad 9 0 false) 9 0 [5], some (.keyErrorClass 5)) ∧
    (stepLine exS0 9 5 0 true).2 = none := by
  constructor
  · exact C2_amended.1 exS1bad 9 5 0 false true [5]
      (by with_unfolding_all rfl) (by decide)
      (by with_unfolding_all rfl) (by with_unfolding_all rfl)
  · exact C2_amended.2 exS0 9 5 0 true (by with_unfolding_all rfl)

/-- C3 counterexample: in a batch whose first observation flips with an
unregistered class and whose second observation is valid, the call raises
KeyError, the failing observation's side state IS partially committed (its
recorded side changes from true to false), and the valid second observation is
never processed (no side entry is created for identity 2). -/
theorem C3_counterexample :
    (exS1bad.update [exDetBadMoved, exDetGood]).2 = some (.keyErrorClass 5) ∧
    lookupA (sideAt exS1bad 0) 9 = some true ∧
    lookupA (sideAt (exS1bad.update [exDetBadMoved, exDetGood]).1 0) 9 = some false ∧
    lookupA (sideAt (exS1bad.update [exDetBadMoved, exDetGood]).1 0) 2 = none := by
  refine ⟨?_, ?_, ?_, ?_⟩
  · with_unfolding_all rfl
  · with_unfolding_all rfl
  · with_unfolding_all rfl
  · with_unfolding_all rfl

/-- C3 amended: when class resolution fails for an observation at a side flip,
the failing observation's side-state update and crossing-log append for that
line ARE committed before the error, and the error aborts the entire `update`
call: the remaining observations of the batch are not processed at all. -/
theorem C3_amended :
    (∀ (s : LineCounter) (d : Detection) (ds : List Detection) (s1 : LineCounter)
      (e : PyError), processDet s d = (s1, some e) → s.update (d :: ds) = (s1, some e)) ∧
    (∀ (s : LineCounter) (tid cid li : Nat) (trig prev : Bool) (log : List Nat),
      li < s.tracker_state_batch.length →
      lookupA (sideAt s li) tid = some prev → prev ≠ trig →
      lookupA s.tracker_line tid = some log →
      lookupA s.class_name_dict cid = none →
      (stepLine s tid cid li trig).2 = some (.keyErrorClass cid) ∧
      sideAt (stepLine s tid cid li trig).1 li = setA (sideAt s li) tid trig ∧
      lookupA ((stepLine s tid cid li trig).1.tracker_line) tid = some (log ++ [li])) := by
  constructor
  · intro s d ds s1 e h
    rw [LineCounter.update, h]
  · intro s tid cid li trig prev log hli hprev hne hlog hcnd
    rw [stepLine_flip_noClass s tid cid li trig prev log hprev hne hlog hcnd]
    refine ⟨rfl, ?_, ?_⟩
    · show nthD (s.tracker_state_batch.set li (setA (sideAt s li) tid trig)) li [] = _
      exact nthD_set_eq s.tracker_state_batch li _ [] hli
    · show lookupA (setA s.tracker_line tid (log ++ [li])) tid = _
      exact lookupA_setA_self s.tracker_line tid (log ++ [li])

/-- Witness for C3 amended at the example batch. -/
theorem C3_amended_witness :
    exS1bad.update (exDetBadMoved :: [exDetGood]) =
      ((processDet exS1bad exDetBadMoved).1, some (.keyErrorClass 5)) ∧
    (stepLine exS1bad 9 5 0 false).2 = some (.keyErrorClass 5) ∧
    sideAt (stepLine exS1bad 9 5 0 false).1 0 = setA (sideAt exS1bad 0) 9 false ∧
    lookupA ((stepLine exS1bad 9 5 0 false).1.tracker_line) 9 = some ([5] ++ [0]) := by
  have h2 := C3_amended.2 exS1bad 9 5 0 false true [5]
    (by with_unfolding_all decide) (by with_unfolding_all rfl) (by decide)
    (by with_unfolding_all rfl) (by with_unfolding_all rfl)
  refine ⟨?_, h2.1, h2.2.1, h2.2.2⟩
  exact C3_amended.1 exS1bad exDetBadMoved [exDetGood] (processDet exS1bad exDetBadMoved).1
    (.keyErrorClass 5) (by with_unfolding_all rfl)

/-- C8 counterexample: the first sighting of identity 3 (class 7) on line 0
creates the crossing-log entry [7] — the observation's class id — not the
single-element list [0] holding the line index that the claim asserts. -/
theorem C8_counterexample :
    lookupA ((exS0.update [exDet7]).1.tracker_line) 3 = some [7] ∧
    ([7] : List Nat) ≠ [0] := by
  constructor
  · with_unfolding_all rfl
  · decide

/-- C8 amended: the crossing log maps each identity to a list whose head is
the class id recorded at its most recent first sighting — first sighting of an
identity on a line stores the single-element list [class_id], overwriting any
existing entry — and each subsequent side flip appends the flipped line's
index; a same-side observation leaves the log unchanged. -/
theorem C8_amended :
    (∀ (s : LineCounter) (tid cid li : Nat) (trig : Bool),
      lookupA (sideAt s li) tid = none →
      (stepLine s tid cid li trig).1.tracker_line = setA s.tracker_line tid [cid]) ∧
    (∀ (s : LineCounter) (tid cid li : Nat) (trig prev : Bool) (log : List Nat),
      lookupA (sideAt s li) tid = some prev → prev ≠ trig →
      lookupA s.tracker_line tid = some log →
      (stepLine s tid cid li trig).1.tracker_line = setA s.tracker_line tid (log ++ [li])) ∧
    (∀ (s : LineCounter) (tid cid li : Nat) (trig : Bool),
      lookupA (sideAt s li) tid = some trig →
      (stepLine s tid cid li trig).1.tracker_line = s.tracker_line) := by
  refine ⟨?_, ?_, ?_⟩
  · intro s tid cid li trig h
    rw [stepLine_fresh s tid cid li trig h]
  · intro s tid cid li trig prev log hprev hne hlog
    cases hcnd : lookupA s.class_name_dict cid with
    | none =>
      rw [stepLine_flip_noClass s tid cid li trig prev log hprev hne hlog hcnd]
      rfl
    | some name =>
      cases trig with
      | true =>
        cases hc : lookupA (insAt s li) name with
        | none =>
          rw [stepLine_flip_in_noCount s tid cid li prev log name hprev hne hlog hcnd hc]
          rfl
        | some c =>
          rw [stepLine_flip_in s tid cid li prev log name c hprev hne hlog hcnd hc]
          rfl
      | false =>
        cases hc : lookupA (outsAt s li) name with
        | none =>
          rw [stepLine_flip_out_noCount s tid cid li prev log name hprev hne hlog hcnd hc]
          rfl
        | some c =>
          rw [stepLine_flip_out s tid cid li prev log name c hprev hne hlog hcnd hc]
          rfl
  · intro s tid cid li trig h
    rw [stepLine_same s tid cid li trig h]

/-- Witness for C8 amended: first sighting stores [7] for identity 3; the flip
of identity 1 appends line index 0 to its log; a same-side observation leaves
the log unchanged. -/
theorem C8_amended_witness :
    (stepLine exS0 3 7 0 true).1.tracker_line = setA exS0.tracker_line 3 [7] ∧
    (stepLine exS1 1 0 0 false).1.tracker_line = setA exS1.tracker_line 1 ([0] ++ [0]) ∧
    (stepLine exS1 1 0 0 true).1.tracker_line = exS1.tracker_line := by
  refine ⟨?_, ?_, ?_⟩
  · exact C8_amended.1 exS0 3 7 0 true (by with_unfolding_all rfl)
  · exact C8_amended.2.1 exS1 1 0 0 false true [0]
      (by with_unfolding_all rfl) (by decide) (by with_unfolding_all rfl)
  · exact C8_amended.2.2 exS1 1 0 0 true (by with_unfolding_all rfl)

/-- C7: for every tracker built by a successful construction and every
sequence of `update` calls in which every observed identified class id is one
of the registered class ids, and for every line, the sum over all classes of
(inCount + outCount) for that line equals the total number of side flips
detected for that line — a flip being an observation whose side-test result
differs from the side previously recorded for that identity on that line. -/
theorem C7_class_partition (start end_ : List Point) (cids : List Nat)
    (cnd : List (Nat × String)) (s0 : LineCounter) (dss : List (List Detection))
    (li : Nat)
    (hinit : LineCounter.init start end_ cids cnd = .ok s0)
    (hcls : ∀ ds ∈ dss, ∀ d ∈ ds, d.tracker_id.isSome → d.class_id ∈ cids) :
    lineTotal (runUpdates s0 dss) li = (flipsRun li s0 dss : Int) := by
  obtain ⟨HG, hcid, _, _, hzero, _⟩ := init_good start end_ cids cnd s0 hinit
  have hcls2 : ∀ ds ∈ dss, ∀ d ∈ ds, d.tracker_id.isSome → d.class_id ∈ s0.class_id := by
    intro ds hds d hd hsome
    rw [hcid]
    exact hcls ds hds d hd hsome
  obtain ⟨_, hsum⟩ := runUpdates_good dss s0 HG hcls2
  rw [hsum li, hzero li]
  ring

/-- Witness for C7: over the example run with two flips of identity 1, line
0's class totals sum to the flip count. -/
theorem C7_class_partition_witness :
    lineTotal (runUpdates exS0 exDss) 0 = (flipsRun 0 exS0 exDss : Int) :=
  C7_class_partition exStart exEnd exCids exCnd exS0 exDss 0
    (by with_unfolding_all rfl) (by with_unfolding_all decide)

/-- Helper: after a successful construction every count value is zero. -/
theorem init_counts_all_zero (start end_ : List Point) (cids : List Nat)
    (cnd : List (Nat × String)) (s0 : LineCounter)
    (h : LineCounter.init start end_ cids cnd = .ok s0) :
    ∀ li k v, (lookupA (insAt s0 li) k = some v → v = 0) ∧
      (lookupA (outsAt s0 li) k = some v → v = 0) := by
  obtain ⟨vecs, tmpl, hbv, hbt, hs0⟩ := init_ok_elim start end_ cids cnd s0 h
  have hzero : ∀ p ∈ tmpl, p.2 = 0 :=
    buildTemplate_zero cnd cids [] tmpl (by intro p hp; simp at hp) hbt
  subst hs0
  intro li k v
  have hcase : ∀ (L : List (String × Int)), L = tmpl ∨ L = [] →
      lookupA L k = some v → v = 0 := by
    intro L hL hlk
    rcases hL with h2 | h2
    · subst h2
      exact hzero (k, v) (lookupA_mem L k v hlk)
    · subst h2
      cases hlk
  have hins : nthD (List.replicate start.length tmpl) li [] = tmpl ∨
      nthD (List.replicate start.length tmpl) li [] = [] := by
    by_cases hli : li < start.length
    · exact Or.inl (nthD_replicate start.length li tmpl [] hli)
    · exact Or.inr (nthD_ge _ li [] (by simp; omega))
  exact ⟨hcase _ hins, hcase _ hins⟩

theorem CountsLe_nonneg {d1 d2 : List (String × Int)} (h : CountsLe d1 d2)
    (hz : ∀ k v, lookupA d1 k = some v → v = 0) (k : String) (c : Int)
    (hk : lookupA d2 k = some c) : 0 ≤ c := by
  cases h1 : lookupA d1 k with
  | none =>
    rw [h.2 k h1] at hk
    cases hk
  | some v =>
    obtain ⟨c2, hc2, hle⟩ := h.1 k v h1
    rw [hk] at hc2
    have he : c = c2 := by injection hc2
    have hv : v = 0 := hz k v h1
    omega

/-- C9: (a) at construction every registered class's inCount and outCount are
initialized to zero on every line; (b) across any single `update` call every
line's count dictionaries keep exactly their keys and are pointwise
non-decreasing (monotonicity, whether or not the call raises); (c) after any
sequence of `update` calls from a successful construction, every count value
is a non-negative integer. -/
theorem C9_counts_invariants :
    (∀ (start end_ : List Point) (cids : List Nat) (cnd : List (Nat × String))
      (s0 : LineCounter), LineCounter.init start end_ cids cnd = .ok s0 →
      ∀ cid name, cid ∈ cids → lookupA cnd cid = some name →
        ∀ li, li < s0.vector_batch.length →
          lookupA (insAt s0 li) name = some 0 ∧ lookupA (outsAt s0 li) name = some 0) ∧
    (∀ (s : LineCounter) (ds : List Detection) (li : Nat),
      CountsLe (insAt s li) (insAt (s.update ds).1 li) ∧
      CountsLe (outsAt s li) (outsAt (s.update ds).1 li)) ∧
    (∀ (start end_ : List Point) (cids : List Nat) (cnd : List (Nat × String))
      (s0 : LineCounter) (dss : List (List Detection)) (li : Nat) (name : String)
      (c : Int), LineCounter.init start end_ cids cnd = .ok s0 →
      (lookupA (insAt (runUpdates s0 dss) li) name = some c → 0 ≤ c) ∧
      (lookupA (outsAt (runUpdates s0 dss) li) name = some c → 0 ≤ c)) := by
  refine ⟨?_, ?_, ?_⟩
  · intro start end_ cids cnd s0 h cid name hcid hname li hli
    exact (init_good start end_ cids cnd s0 h).2.2.2.2.2 cid name hcid hname li hli
  · intro s ds li
    obtain ⟨_, _, _, _, _, _, _, _, _, tple⟩ := update_tp ds s
    exact tple li
  · intro start end_ cids cnd s0 dss li name c h
    obtain ⟨_, _, _, _, _, _, _, _, _, tple⟩ := runUpdates_tp dss s0
    have hz := init_counts_all_zero start end_ cids cnd s0 h
    constructor
    · intro hk
      exact CountsLe_nonneg (tple li).1 (fun k v hkv => (hz li k v).1 hkv) name c hk
    · intro hk
      exact CountsLe_nonneg (tple li).2 (fun k v hkv => (hz li k v).2 hkv) name c hk

/-- Witness for C9: zero initialization of "car" on line 0; monotonicity of
line 0's counts across the example update; non-negativity of the final
out-count value 1 reached in the example run. -/
theorem C9_counts_invariants_witness :
    (lookupA (insAt exS0 0) "car" = some 0 ∧ lookupA (outsAt exS0 0) "car" = some 0) ∧
    CountsLe (insAt exS0 0) (insAt (exS0.update [exDetA]).1 0) ∧
    (0 : Int) ≤ 1 := by
  have h := C9_counts_invariants
  refine ⟨?_, (h.2.1 exS0 [exDetA] 0).1, ?_⟩
  · exact h.1 exStart exEnd exCids exCnd exS0 (by with_unfolding_all rfl) 0 "car"
      (by decide) (by decide) 0 (by with_unfolding_all decide)
  · exact (h.2.2 exStart exEnd exCids exCnd exS0 exDss 0 "car" 1
      (by with_unfolding_all rfl)).2 (by with_unfolding_all rfl)

end Counting
